import Mathlib

/-!
Verification of the pipeline-optimizer backend core: a shallow embedding of
the domain schema (backend/app/domain/schema.py), the validator
(backend/app/domain/validate.py), the LP model compiler
(backend/app/solvers/lp/build.py) and the solution extractor
(backend/app/solvers/lp/extract.py), with theorems about the embedded
definitions.

Modelling conventions:
- Python floats are modelled as rationals; quantities, caps and costs are
  exact values, so the algebra of the compiled model is faithful.
- A raised DomainError is modelled as the error arm of Except with a typed
  error value carrying the offending ids (the Python reason strings carry
  the same data in prose).
- The external OR-Tools solve capability is an input: the extractor takes
  the raw solver status code and the variable assignment as data.
- Python dict semantics (keyed insertion, last write wins) are modelled by
  association lists read from the right, see dictLookup below.
-/

namespace PipelineOpt

/-- Payload of a source node: schema.py SourceData. -/
structure SourceData where
  commodity : String
  supply_cap : ℚ
  unit_cost : ℚ
deriving DecidableEq

/-- Payload of a sink node: schema.py SinkData. -/
structure SinkData where
  commodity : String
  demand_cap : ℚ
  unit_value : ℚ
deriving DecidableEq

/-- One recipe line of a process node: schema.py ProcessIO (qty per 1 unit run). -/
structure ProcessIO where
  commodity : String
  qty : ℚ
deriving DecidableEq

/-- Payload of a process node: schema.py ProcessData. -/
structure ProcessData where
  inputs : List ProcessIO
  outputs : List ProcessIO
  run_cap : Option ℚ
  run_cost : ℚ
deriving DecidableEq

/-- Node kind: schema.py NodeType. -/
inductive NodeType
  | source
  | process
  | sink
deriving DecidableEq

/-- A node of the graph: schema.py NodeSpec, with its three optional payload
fields exactly as declared there. -/
structure NodeSpec where
  id : String
  type : NodeType
  name : Option String
  source : Option SourceData
  sink : Option SinkData
  process : Option ProcessData
deriving DecidableEq

/-- An edge of the graph: schema.py EdgeSpec. -/
structure EdgeSpec where
  id : String
  u : String
  v : String
  commodity : String
  cap : Option ℚ
  unit_cost : ℚ
deriving DecidableEq

/-- Objective kind: schema.py restricts SolveObjective.kind to the literal
strings max_profit and max_flow_to_sink, so the type is closed. -/
inductive ObjectiveKind
  | max_profit
  | max_flow_to_sink
deriving DecidableEq

/-- Objective selection: schema.py SolveObjective. -/
structure SolveObjective where
  kind : ObjectiveKind
  sink_node_id : Option String
deriving DecidableEq

/-- Solve mode: schema.py SolveMode has the single member lp. -/
inductive SolveMode
  | lp
deriving DecidableEq

/-- Options of a request: schema.py SolveOptions. -/
structure SolveOptions where
  mode : SolveMode
  objective : SolveObjective
deriving DecidableEq

/-- A solve request: schema.py SolveRequest. -/
structure SolveRequest where
  nodes : List NodeSpec
  edges : List EdgeSpec
  options : SolveOptions
deriving DecidableEq

/-- Result status: schema.py SolveStatus. -/
inductive SolveStatus
  | optimal
  | infeasible
  | unbounded
  | error
deriving DecidableEq

/-- One binding-constraint record: schema.py TightConstraint. -/
structure TightConstraint where
  name : String
  slack : ℚ
deriving DecidableEq

/-- The domain result: schema.py SolveResult. The per-edge, per-process and
per-sink maps are dicts keyed by id, modelled as association lists in
insertion order. -/
structure SolveResult where
  status : SolveStatus
  objective_value : Option ℚ
  edge_flows : List (String × ℚ)
  process_runs : List (String × ℚ)
  sink_delivered : List (String × ℚ)
  tight_constraints : List TightConstraint
  message : Option String
deriving DecidableEq

/-- Lookup in an association list with Python dict semantics: the value of
the last binding of the key wins. -/
def dictLookup {α : Type} (l : List (String × α)) (k : String) : Option α :=
  (l.reverse.find? (fun p => p.1 == k)).map (fun p => p.2)

/-- Lookup with a default, mirroring dict.get(k, d). -/
def dictGetD (l : List (String × ℚ)) (k : String) : ℚ :=
  (dictLookup l k).getD 0

/-- Python dict nodes_by_id built by one pass over the nodes; a later node
with the same id overwrites an earlier one. -/
def nodesById (nodes : List NodeSpec) (i : String) : Option NodeSpec :=
  nodes.reverse.find? (fun n => n.id == i)

/-! ## normalize.py -/

/-- The whole of normalize.py: normalize_request returns its argument as-is
(the docstring notes lists already exist via pydantic defaults and the
frontend is the source of truth). -/
def normalize_request (req : SolveRequest) : SolveRequest :=
  req

/-! ## schema.py model validator on NodeSpec -/

/-- The reasons NodeSpec model validation rejects a node, one per raise in
schema.py NodeSpec, in source order. -/
inductive SchemaError
  | sourceRequiresSourceField
  | sourceForbidsOtherFields
  | sinkRequiresSinkField
  | sinkForbidsOtherFields
  | processRequiresProcessField
  | processForbidsOtherFields
deriving DecidableEq

/-- The pydantic model validator NodeSpec checks after parsing: the payload
field matching the declared type must be present and the two foreign payload
fields absent. Returns the node itself on success, as the Python validator
returns self. -/
def checkPayloadMatchesType (n : NodeSpec) : Except SchemaError NodeSpec :=
  if n.type = NodeType.source then
    if n.source.isNone then .error .sourceRequiresSourceField
    else if n.sink.isSome || n.process.isSome then .error .sourceForbidsOtherFields
    else .ok n
  else if n.type = NodeType.sink then
    if n.sink.isNone then .error .sinkRequiresSinkField
    else if n.source.isSome || n.process.isSome then .error .sinkForbidsOtherFields
    else .ok n
  else
    if n.process.isNone then .error .processRequiresProcessField
    else if n.source.isSome || n.sink.isSome then .error .processForbidsOtherFields
    else .ok n

/-! ## validate.py -/

/-- The typed domain error raised by validate.py and build.py, one
constructor per raise site, carrying the offending ids. -/
inductive DomainError
  | dupNodeIds
  | dupEdgeIds
  | sourceMissingPayload (nid : String)
  | sinkMissingPayload (nid : String)
  | processMissingPayload (nid : String)
  | processNoInputs (nid : String)
  | processNoOutputs (nid : String)
  | dupIoCommodities (nid : String) (field : String) (dups : List String)
  | edgeMissingU (eid : String) (u : String)
  | edgeMissingV (eid : String) (v : String)
  | edgeSelfLoop (eid : String) (u : String)
  | edgeFromSink (eid : String) (nid : String)
  | edgeIntoSource (eid : String) (nid : String)
  | edgeNotProduced (eid : String) (comm : String) (nid : String)
  | edgeNotAccepted (eid : String) (comm : String) (nid : String)
  | objectiveNotImplemented (kind : ObjectiveKind)
  | sinkNoProducer (nid : String) (comm : String)
  | sinkUnreachable (nid : String) (comm : String)
  | maxFlowMissingSinkId
deriving DecidableEq

/-- Unique-id stage of validate_request: duplicate node ids are reported
first, then duplicate edge ids (len(set(ids)) == len(ids) is Nodup). -/
def checkUniqueIds (req : SolveRequest) : Except DomainError Unit :=
  if (req.nodes.map (fun n => n.id)).Nodup then
    if (req.edges.map (fun e => e.id)).Nodup then .ok ()
    else .error .dupEdgeIds
  else .error .dupNodeIds

/-- The commodities reported by the duplicate-commodity error: those that
occur more than once, each once, sorted (validate.py builds the count dict
and sorts the keys with count above one). -/
def duplicatedComms (comms : List String) : List String :=
  ((comms.filter (fun c => 1 < comms.count c)).dedup).mergeSort (fun a b => a ≤ b)

/-- Embeds validate.py function that checks a process node has no duplicate
commodity within one io list. -/
def validateUniqueIoComms (nid : String) (field : String) (comms : List String) :
    Except DomainError Unit :=
  if comms.Nodup then .ok ()
  else .error (.dupIoCommodities nid field (duplicatedComms comms))

/-- Embeds validate.py node-shape check: the payload matching the node type
must be present (foreign payloads are not examined here; the schema already
forbade them). -/
def validateNodeShape (n : NodeSpec) : Except DomainError Unit :=
  match n.type with
  | NodeType.source => if n.source.isSome then .ok () else .error (.sourceMissingPayload n.id)
  | NodeType.sink => if n.sink.isSome then .ok () else .error (.sinkMissingPayload n.id)
  | NodeType.process => if n.process.isSome then .ok () else .error (.processMissingPayload n.id)

/-- Embeds validate.py process-node check: at least one input, at least one
output, and unique commodities within inputs and, independently, outputs.
The Python function asserts the payload is present (the shape check ran
first); a missing payload passes through here. -/
def validateProcessNode (n : NodeSpec) : Except DomainError Unit :=
  match n.process with
  | none => .ok ()
  | some pd =>
    if pd.inputs.isEmpty then .error (.processNoInputs n.id)
    else if pd.outputs.isEmpty then .error (.processNoOutputs n.id)
    else do
      validateUniqueIoComms n.id "inputs" (pd.inputs.map (fun io => io.commodity))
      validateUniqueIoComms n.id "outputs" (pd.outputs.map (fun io => io.commodity))

/-- One iteration of the node loop of validate_request: shape first, then
the process-specific checks for process nodes. -/
def validateNode (n : NodeSpec) : Except DomainError Unit := do
  validateNodeShape n
  if n.type = NodeType.process then validateProcessNode n else .ok ()

/-- Embeds validate.py edge-reference check: both endpoints exist and no
self-loop. -/
def edgeReferencesValidNode (e : EdgeSpec) (nodes : List NodeSpec) :
    Except DomainError Unit :=
  if (nodesById nodes e.u).isNone then .error (.edgeMissingU e.id e.u)
  else if (nodesById nodes e.v).isNone then .error (.edgeMissingV e.id e.v)
  else if e.u = e.v then .error (.edgeSelfLoop e.id e.u)
  else .ok ()

/-- Embeds validate.py direction check: edges may not originate at a sink
nor terminate at a source. -/
def edgeDirectionIsCorrect (e : EdgeSpec) (node_u node_v : NodeSpec) :
    Except DomainError Unit :=
  if node_u.type = NodeType.sink then .error (.edgeFromSink e.id node_u.id)
  else if node_v.type = NodeType.source then .error (.edgeIntoSource e.id node_v.id)
  else .ok ()

/-- Embeds validate.py produced-commodity set of a node: a source provides
its commodity, a process provides its output commodities, a sink provides
nothing (the set is modelled as a list; only membership is consumed). -/
def producedCommodities (n : NodeSpec) : List String :=
  if n.type = NodeType.source then
    (match n.source with
     | some sd => [sd.commodity]
     | none => [])
  else if n.type = NodeType.process then
    (match n.process with
     | some pd => pd.outputs.map (fun io => io.commodity)
     | none => [])
  else []

/-- Embeds validate.py accepted-commodity set of a node: a sink accepts its
commodity, a process accepts its input commodities. -/
def acceptedCommodities (n : NodeSpec) : List String :=
  if n.type = NodeType.sink then
    (match n.sink with
     | some sd => [sd.commodity]
     | none => [])
  else if n.type = NodeType.process then
    (match n.process with
     | some pd => pd.inputs.map (fun io => io.commodity)
     | none => [])
  else []

/-- Embeds validate.py check that the tail node of an edge produces the
commodity the edge carries. -/
def edgeCommodityIsProducedByU (e : EdgeSpec) (node_u : NodeSpec) :
    Except DomainError Unit :=
  if e.commodity ∈ producedCommodities node_u then .ok ()
  else .error (.edgeNotProduced e.id e.commodity node_u.id)

/-- Embeds validate.py check that the head node of an edge accepts the
commodity the edge carries. -/
def edgeCommodityIsAcceptedByV (e : EdgeSpec) (node_v : NodeSpec) :
    Except DomainError Unit :=
  if e.commodity ∈ acceptedCommodities node_v then .ok ()
  else .error (.edgeNotAccepted e.id e.commodity node_v.id)

/-- One iteration of the edge loop of validate_request: reference check
first; the later checks read the endpoint nodes, which exist once the
reference check passed. -/
def validateEdge (e : EdgeSpec) (nodes : List NodeSpec) : Except DomainError Unit := do
  edgeReferencesValidNode e nodes
  match nodesById nodes e.u, nodesById nodes e.v with
  | some node_u, some node_v => do
    edgeDirectionIsCorrect e node_u node_v
    edgeCommodityIsProducedByU e node_u
    edgeCommodityIsAcceptedByV e node_v
  | _, _ => .ok ()

/-- Objective stage of validate_request. The source compares obj.kind
against ObjectiveKind.MAX_PROFIT (a name the schema module does not even
define; the comparison is modelled against the max_profit literal) and
raises the not-implemented error for every other kind, max_flow_to_sink
included. -/
def checkObjective (req : SolveRequest) : Except DomainError Unit :=
  if req.options.objective.kind = ObjectiveKind.max_profit then .ok ()
  else .error (.objectiveNotImplemented req.options.objective.kind)

/-- Reverse adjacency restricted to one commodity: radj comm v lists the
tail nodes u of edges u -> v carrying comm, in edge order, as built by the
defaultdict loop in validate.py. -/
def radjComm (edges : List EdgeSpec) (comm : String) (v : String) : List String :=
  (edges.filter (fun e => e.commodity == comm && e.v == v)).map (fun e => e.u)

/-- Does this node produce the commodity, per the producers_by_comm loop of
validate.py: a source whose commodity matches, or a process one of whose
outputs matches. -/
def producesComm (n : NodeSpec) (comm : String) : Bool :=
  if n.type = NodeType.source then
    (match n.source with
     | some sd => sd.commodity == comm
     | none => false)
  else if n.type = NodeType.process then
    (match n.process with
     | some pd => pd.outputs.any (fun io => io.commodity == comm)
     | none => false)
  else false

/-- The producer set of a commodity (membership-only model of the Python
set of node ids). -/
def producersOf (nodes : List NodeSpec) (comm : String) : List String :=
  (nodes.filter (fun n => producesComm n comm)).map (fun n => n.id)

/-- Inner loop of the BFS: push every not-yet-seen neighbour, marking it
seen as it is queued, exactly as the Python for-loop mutates seen and q.
Returns the new seen set and queue. -/
def enqueueNew (seen : List String) (q : List String) :
    List String → List String × List String
  | [] => (seen, q)
  | u :: rest =>
    if u ∈ seen then enqueueNew seen q rest
    else enqueueNew (u :: seen) (q ++ [u]) rest

/-- The while-loop of the reverse BFS with explicit fuel. Every node enters
the queue at most once (it is marked seen when queued and the start node is
pre-seen), and each queued node other than the start comes from one
adjacency entry, so edges+1 steps always drain the queue: with that fuel
the function agrees with the unbounded Python loop. -/
def bfsReach (radj : String → List String) (producers : List String) :
    Nat → List String → List String → Bool
  | 0, _, _ => false
  | _ + 1, [], _ => false
  | fuel + 1, v :: q, seen =>
    if v ∈ producers then true
    else
      let sq := enqueueNew seen q (radj v)
      bfsReach radj producers fuel sq.2 sq.1

/-- Embeds validate.py reverse reachability: breadth-first traversal from
the sink over the reverse adjacency of one commodity, true iff some
producer is dequeued. -/
def reverseReachableFromAnyProducer (edges : List EdgeSpec) (comm : String)
    (producers : List String) (sinkId : String) : Bool :=
  bfsReach (radjComm edges comm) producers (edges.length + 1) [sinkId] [sinkId]

/-- One iteration of the sink loop of _validate_sink_reachability: non-sink
nodes, payload-less sinks and sinks with demand_cap at most zero are
skipped; otherwise no producer at all is an error, and an unreachable sink
is an error. -/
def sinkReachCheck (req : SolveRequest) (n : NodeSpec) : Except DomainError Unit :=
  if n.type = NodeType.sink then
    match n.sink with
    | none => .ok ()
    | some sd =>
      if sd.demand_cap ≤ 0 then .ok ()
      else
        if (producersOf req.nodes sd.commodity).isEmpty then
          .error (.sinkNoProducer n.id sd.commodity)
        else if reverseReachableFromAnyProducer req.edges sd.commodity
            (producersOf req.nodes sd.commodity) n.id then .ok ()
        else .error (.sinkUnreachable n.id sd.commodity)
  else .ok ()

/-- Runs a check over every element in order, stopping at the first error,
as a Python for-loop of raising checks does. -/
def checkAll {α : Type} (f : α → Except DomainError Unit) :
    List α → Except DomainError Unit
  | [] => .ok ()
  | x :: rest => do
    f x
    checkAll f rest

/-- Embeds _validate_sink_reachability: the sink loop over all nodes. -/
def validateSinkReachability (req : SolveRequest) : Except DomainError Unit :=
  checkAll (sinkReachCheck req) req.nodes

/-- Embeds validate_request: unique ids, the node loop, the edge loop, the
objective check and sink reachability, in source order, first failure
wins. -/
def validateRequest (req : SolveRequest) : Except DomainError Unit := do
  checkUniqueIds req
  checkAll validateNode req.nodes
  checkAll (fun e => validateEdge e req.nodes) req.edges
  checkObjective req
  validateSinkReachability req

/-! ## build.py -/

/-- The LP variables: one non-negative flow variable per edge and one
non-negative run variable per process node. -/
inductive LPVar
  | flow (eid : String)
  | run (nid : String)
deriving DecidableEq

/-- A variable assignment reported by the solve capability. -/
abbrev Assign := LPVar → ℚ

/-- The sum of the flow variables of a list of edge ids under an
assignment (an empty list stands for the literal 0.0 the Python code
uses in that case). -/
def flowSum (a : Assign) (ids : List String) : ℚ :=
  (ids.map (fun i => a (LPVar.flow i))).sum

/-- The constraints build_lp adds, one constructor per s.Add call, carrying
the data of the added linear constraint. -/
inductive LPConstraint
  | capEdge (eid : String) (cap : ℚ)
  | supply (nid : String) (outEdges : List String) (cap : ℚ)
  | demand (nid : String) (inEdges : List String) (cap : ℚ)
  | runCap (nid : String) (cap : ℚ)
  | noInToSource (nid : String) (comm : String) (inEdges : List String)
  | noOutFromSink (nid : String) (comm : String) (outEdges : List String)
  | conservation (nid : String) (comm : String) (outEdges : List String)
      (inEdges : List String) (net : ℚ)
deriving DecidableEq

/-- Meaning of a constraint at an assignment. The conservation equation
carries net = produced minus consumed per unit run. -/
def LPConstraint.holds (a : Assign) : LPConstraint → Prop
  | .capEdge eid cap => a (LPVar.flow eid) ≤ cap
  | .supply _ outE cap => flowSum a outE ≤ cap
  | .demand _ inE cap => flowSum a inE ≤ cap
  | .runCap nid cap => a (LPVar.run nid) ≤ cap
  | .noInToSource _ _ inE => flowSum a inE = 0
  | .noOutFromSink _ _ outE => flowSum a outE = 0
  | .conservation nid _ outE inE net =>
      flowSum a outE - flowSum a inE = a (LPVar.run nid) * net

/-- The ids of edges leaving nid with the given commodity, in edge order:
the edges_by_u_comm adjacency of build_lp. -/
def edgesByUComm (edges : List EdgeSpec) (nid : String) (comm : String) : List String :=
  ((edges.filter (fun e => e.u == nid && e.commodity == comm)).map (fun e => e.id))

/-- The ids of edges entering nid with the given commodity, in edge order:
the edges_by_v_comm adjacency of build_lp. -/
def edgesByVComm (edges : List EdgeSpec) (nid : String) (comm : String) : List String :=
  ((edges.filter (fun e => e.v == nid && e.commodity == comm)).map (fun e => e.id))

/-- The commodities a node payload mentions, as collected by build_lp:
source commodity, sink commodity, process inputs then outputs. -/
def nodePayloadComms (n : NodeSpec) : List String :=
  (if n.type = NodeType.source then
    (match n.source with
     | some sd => [sd.commodity]
     | none => [])
   else [])
  ++ (if n.type = NodeType.sink then
    (match n.sink with
     | some sd => [sd.commodity]
     | none => [])
   else [])
  ++ (if n.type = NodeType.process then
    (match n.process with
     | some pd => pd.inputs.map (fun io => io.commodity)
          ++ pd.outputs.map (fun io => io.commodity)
     | none => [])
   else [])

/-- All commodities present anywhere in the network: edge commodities plus
node payload commodities. The Python set is modelled as a deduplicated
list; only membership and uniqueness are consumed downstream. -/
def commoditiesOf (req : SolveRequest) : List String :=
  ((req.edges.map (fun e => e.commodity)) ++ (req.nodes.map nodePayloadComms).flatten).dedup

/-- The edge to finite-cap map of build_lp, in edge order. -/
def edgeCaps (edges : List EdgeSpec) : List (String × ℚ) :=
  edges.filterMap (fun e => (e.cap).map (fun c => (e.id, c)))

/-- The source to supply-cap map of build_lp, in node order. -/
def sourceSupplyCaps (nodes : List NodeSpec) : List (String × ℚ) :=
  nodes.filterMap (fun n =>
    if n.type = NodeType.source then
      (match n.source with
       | some sd => some (n.id, sd.supply_cap)
       | none => none)
    else none)

/-- The sink to demand-cap map of build_lp, in node order. -/
def sinkDemandCaps (nodes : List NodeSpec) : List (String × ℚ) :=
  nodes.filterMap (fun n =>
    if n.type = NodeType.sink then
      (match n.sink with
       | some sd => some (n.id, sd.demand_cap)
       | none => none)
    else none)

/-- The process to finite run-cap map of build_lp, in node order. -/
def procRunCaps (nodes : List NodeSpec) : List (String × ℚ) :=
  nodes.filterMap (fun n =>
    if n.type = NodeType.process then
      (match n.process with
       | some pd => (pd.run_cap).map (fun c => (n.id, c))
       | none => none)
    else none)

/-- The source to outflow-expression map of build_lp: each source node is
mapped to the edge ids whose flows its outflow expression sums. -/
def sourceOutflowEdges (req : SolveRequest) : List (String × List String) :=
  req.nodes.filterMap (fun n =>
    if n.type = NodeType.source then
      (match n.source with
       | some sd => some (n.id, edgesByUComm req.edges n.id sd.commodity)
       | none => none)
    else none)

/-- The sink to delivered-expression map of build_lp: each sink node is
mapped to the edge ids whose flows its delivered expression sums. -/
def sinkDeliveredEdges (req : SolveRequest) : List (String × List String) :=
  req.nodes.filterMap (fun n =>
    if n.type = NodeType.sink then
      (match n.sink with
       | some sd => some (n.id, edgesByVComm req.edges n.id sd.commodity)
       | none => none)
    else none)

/-- Edge-capacity constraints: one per edge with a finite cap, in edge
order. -/
def edgeCapConstraints (edges : List EdgeSpec) : List LPConstraint :=
  edges.filterMap (fun e => (e.cap).map (fun c => LPConstraint.capEdge e.id c))

/-- Source-supply constraints, one per source node with payload. -/
def supplyConstraints (req : SolveRequest) : List LPConstraint :=
  req.nodes.filterMap (fun n =>
    if n.type = NodeType.source then
      (match n.source with
       | some sd => some (LPConstraint.supply n.id
            (edgesByUComm req.edges n.id sd.commodity) sd.supply_cap)
       | none => none)
    else none)

/-- Sink-demand constraints, one per sink node with payload. -/
def demandConstraints (req : SolveRequest) : List LPConstraint :=
  req.nodes.filterMap (fun n =>
    if n.type = NodeType.sink then
      (match n.sink with
       | some sd => some (LPConstraint.demand n.id
            (edgesByVComm req.edges n.id sd.commodity) sd.demand_cap)
       | none => none)
    else none)

/-- Process run-cap constraints, one per process node with a finite
run_cap. -/
def runCapConstraints (req : SolveRequest) : List LPConstraint :=
  req.nodes.filterMap (fun n =>
    if n.type = NodeType.process then
      (match n.process with
       | some pd => (pd.run_cap).map (fun c => LPConstraint.runCap n.id c)
       | none => none)
    else none)

/-- The topology safety net of build_lp for one node: over every commodity,
a source with inbound edges gets a zero-inflow equation and a sink with
outbound edges a zero-outflow equation. -/
def topologyConstraintsFor (edges : List EdgeSpec) (comms : List String)
    (n : NodeSpec) : List LPConstraint :=
  comms.filterMap (fun c =>
    if n.type = NodeType.source then
      (if (edgesByVComm edges n.id c).isEmpty then none
       else some (LPConstraint.noInToSource n.id c (edgesByVComm edges n.id c)))
    else if n.type = NodeType.sink then
      (if (edgesByUComm edges n.id c).isEmpty then none
       else some (LPConstraint.noOutFromSink n.id c (edgesByUComm edges n.id c)))
    else none)

/-- The topology safety net over all nodes and commodities. -/
def topologyConstraints (req : SolveRequest) : List LPConstraint :=
  (req.nodes.map (topologyConstraintsFor req.edges (commoditiesOf req))).flatten

/-- Quantity of a commodity produced per unit run of a process recipe. -/
def producedQty (pd : ProcessData) (c : String) : ℚ :=
  ((pd.outputs.filter (fun io => io.commodity == c)).map (fun io => io.qty)).sum

/-- Quantity of a commodity consumed per unit run of a process recipe. -/
def consumedQty (pd : ProcessData) (c : String) : ℚ :=
  ((pd.inputs.filter (fun io => io.commodity == c)).map (fun io => io.qty)).sum

/-- The conservation equation generated for one node and one commodity: a
process node with payload yields the equation of that commodity, any other
node yields nothing. -/
def consGen (edges : List EdgeSpec) (n : NodeSpec) (c : String) : Option LPConstraint :=
  if n.type = NodeType.process then
    (match n.process with
     | some pd => some (LPConstraint.conservation n.id c
          (edgesByUComm edges n.id c) (edgesByVComm edges n.id c)
          (producedQty pd c - consumedQty pd c))
     | none => none)
  else none

/-- The conservation equations of one node: for a process node with
payload, one equation per commodity present in the network; nothing for
other nodes. -/
def conservationConstraintsFor (edges : List EdgeSpec) (comms : List String)
    (n : NodeSpec) : List LPConstraint :=
  comms.filterMap (consGen edges n)

/-- All conservation equations of build_lp. -/
def conservationConstraints (req : SolveRequest) : List LPConstraint :=
  (req.nodes.map (conservationConstraintsFor req.edges (commoditiesOf req))).flatten

/-- Every constraint build_lp adds, in source order: edge caps, supply,
demand, run caps, topology safety net, conservation. -/
def allConstraints (req : SolveRequest) : List LPConstraint :=
  edgeCapConstraints req.edges ++ supplyConstraints req ++ demandConstraints req
  ++ runCapConstraints req ++ topologyConstraints req ++ conservationConstraints req

/-- The max_profit objective as build_lp accumulates it: sink revenue minus
source cost minus edge cost minus process run cost; the delivered and
outflow expressions are read back from the dicts stored earlier. -/
def profitObjective (req : SolveRequest) (a : Assign) : ℚ :=
  ((req.nodes.map (fun n =>
    if n.type = NodeType.sink then
      (match n.sink with
       | some sd => sd.unit_value *
          flowSum a ((dictLookup (sinkDeliveredEdges req) n.id).getD [])
       | none => 0)
    else 0)).sum)
  - ((req.nodes.map (fun n =>
    if n.type = NodeType.source then
      (match n.source with
       | some sd => sd.unit_cost *
          flowSum a ((dictLookup (sourceOutflowEdges req) n.id).getD [])
       | none => 0)
    else 0)).sum)
  - ((req.edges.map (fun e => e.unit_cost * a (LPVar.flow e.id))).sum)
  - ((req.nodes.map (fun n =>
    if n.type = NodeType.process then
      (match n.process with
       | some pd => pd.run_cost * a (LPVar.run n.id)
       | none => 0)
    else 0)).sum)

/-- The max_flow_to_sink objective: the delivered expression of the target
sink, or the literal 0.0 when the id has no delivered expression. -/
def maxFlowObjective (req : SolveRequest) (sid : String) (a : Assign) : ℚ :=
  flowSum a ((dictLookup (sinkDeliveredEdges req) sid).getD [])

/-- The result of build_lp: the LPBuild dataclass. The pywraplp solver
handle becomes the constraint list plus the objective function; the
auxiliary maps for extraction are carried as in the source. -/
structure LPBuild where
  edgeVarIds : List String
  runVarIds : List String
  constraints : List LPConstraint
  objective : Assign → ℚ
  edge_caps : List (String × ℚ)
  source_supply_caps : List (String × ℚ)
  sink_demand_caps : List (String × ℚ)
  proc_run_caps : List (String × ℚ)
  edgesByU : String → String → List String
  edgesByV : String → String → List String

/-- Embeds build_lp. The only failure path kept is the defensive domain
error for a max_flow_to_sink objective without sink_node_id; the RuntimeError
for a failed solver construction concerns the external collaborator and is
outside the model. -/
def buildLP (req : SolveRequest) : Except DomainError LPBuild :=
  match req.options.objective.kind with
  | ObjectiveKind.max_profit =>
    .ok ⟨req.edges.map (fun e => e.id),
         (req.nodes.filter (fun n => n.type = NodeType.process)).map (fun n => n.id),
         allConstraints req,
         profitObjective req,
         edgeCaps req.edges,
         sourceSupplyCaps req.nodes,
         sinkDemandCaps req.nodes,
         procRunCaps req.nodes,
         edgesByUComm req.edges,
         edgesByVComm req.edges⟩
  | ObjectiveKind.max_flow_to_sink =>
    match req.options.objective.sink_node_id with
    | none => .error .maxFlowMissingSinkId
    | some sid =>
      .ok ⟨req.edges.map (fun e => e.id),
           (req.nodes.filter (fun n => n.type = NodeType.process)).map (fun n => n.id),
           allConstraints req,
           maxFlowObjective req sid,
           edgeCaps req.edges,
           sourceSupplyCaps req.nodes,
           sinkDemandCaps req.nodes,
           procRunCaps req.nodes,
           edgesByUComm req.edges,
           edgesByVComm req.edges⟩

/-! ## extract.py -/

/-- Raw OR-Tools status codes (pywraplp.Solver constants). -/
def OPTIMAL : Int := 0

/-- Raw FEASIBLE status code. -/
def FEASIBLE : Int := 1

/-- Raw INFEASIBLE status code. -/
def INFEASIBLE : Int := 2

/-- Raw UNBOUNDED status code. -/
def UNBOUNDED : Int := 3

/-- Raw ABNORMAL status code. -/
def ABNORMAL : Int := 4

/-- Raw MODEL_INVALID status code. -/
def MODEL_INVALID : Int := 5

/-- Raw NOT_SOLVED status code. -/
def NOT_SOLVED : Int := 6

/-- What the solve capability reports back: the raw status code, the value
of each variable and the objective value. -/
structure SolverOutput where
  statusCode : Int
  varValue : Assign
  objectiveValue : ℚ

/-- The status_map dict of extract_solution with its .get default: OPTIMAL
and FEASIBLE map to the domain optimal, INFEASIBLE and UNBOUNDED to their
domain namesakes, everything else to error. -/
def statusMap (code : Int) : SolveStatus :=
  if code = OPTIMAL then .optimal
  else if code = FEASIBLE then .optimal
  else if code = INFEASIBLE then .infeasible
  else if code = UNBOUNDED then .unbounded
  else .error

/-- Embeds _status_message. -/
def statusMessage (code : Int) : String :=
  if code = MODEL_INVALID then
    "Model is invalid (NaN/Inf coefficients or malformed constraints)."
  else if code = NOT_SOLVED then
    "Model not solved (solver did not run or stopped early)."
  else if code = ABNORMAL then "Solver ended abnormally."
  else "Unknown solver status: " ++ toString code

/-- Embeds _empty_result: a result with the given status and message and
every map, list and the objective value empty. -/
def emptyResult (status : SolveStatus) (message : Option String) : SolveResult :=
  ⟨status, none, [], [], [], [], message⟩

/-- Embeds _compute_sink_delivered: per sink node with payload, the sum of
the extracted flow over its incoming edges of its commodity, using the
adjacency index of the build. -/
def computeSinkDelivered (spec : SolveRequest) (built : LPBuild)
    (edge_flows : List (String × ℚ)) : List (String × ℚ) :=
  spec.nodes.filterMap (fun n =>
    if n.type = NodeType.sink then
      (match n.sink with
       | some sd => some (n.id,
          ((built.edgesByV n.id sd.commodity).map (fun eid => dictGetD edge_flows eid)).sum)
       | none => none)
    else none)

/-- The declared default tolerance of _compute_tight_constraints (1e-6). -/
def tightEpsDefault : ℚ := 1 / 1000000

/-- The default tolerance of extract_solution (1e-7); extract_solution
passes its eps down to _compute_tight_constraints, so on the default path
this value, not tightEpsDefault, decides tightness. -/
def extractEpsDefault : ℚ := 1 / 10000000

/-- Edge-cap stage of _compute_tight_constraints: one record per stored cap
whose slack is within eps, in enumeration order. -/
def tightEdgeCaps (built : LPBuild) (edge_flows : List (String × ℚ)) (eps : ℚ) :
    List TightConstraint :=
  built.edge_caps.filterMap (fun p =>
    if p.2 - dictGetD edge_flows p.1 ≤ eps then
      some ⟨"edge_cap:" ++ p.1, p.2 - dictGetD edge_flows p.1⟩
    else none)

/-- Source-supply stage of _compute_tight_constraints: the used amount is
the extracted flow summed over the outgoing edges of the source commodity.
The Python code reads the node from the nodes dict and asserts its payload;
entries without a node or payload cannot arise from build_lp and contribute
nothing here. -/
def tightSourceSupply (spec : SolveRequest) (built : LPBuild)
    (edge_flows : List (String × ℚ)) (eps : ℚ) : List TightConstraint :=
  built.source_supply_caps.filterMap (fun p =>
    match nodesById spec.nodes p.1 with
    | some n =>
      (match n.source with
       | some sd =>
         if p.2 - ((built.edgesByU p.1 sd.commodity).map
              (fun eid => dictGetD edge_flows eid)).sum ≤ eps then
           some ⟨"source_supply:" ++ p.1,
             p.2 - ((built.edgesByU p.1 sd.commodity).map
               (fun eid => dictGetD edge_flows eid)).sum⟩
         else none
       | none => none)
    | none => none)

/-- Sink-demand stage of _compute_tight_constraints. -/
def tightSinkDemand (spec : SolveRequest) (built : LPBuild)
    (edge_flows : List (String × ℚ)) (eps : ℚ) : List TightConstraint :=
  built.sink_demand_caps.filterMap (fun p =>
    match nodesById spec.nodes p.1 with
    | some n =>
      (match n.sink with
       | some sd =>
         if p.2 - ((built.edgesByV p.1 sd.commodity).map
              (fun eid => dictGetD edge_flows eid)).sum ≤ eps then
           some ⟨"sink_demand:" ++ p.1,
             p.2 - ((built.edgesByV p.1 sd.commodity).map
               (fun eid => dictGetD edge_flows eid)).sum⟩
         else none
       | none => none)
    | none => none)

/-- Process run-cap stage of _compute_tight_constraints. -/
def tightProcRunCaps (built : LPBuild) (process_runs : List (String × ℚ)) (eps : ℚ) :
    List TightConstraint :=
  built.proc_run_caps.filterMap (fun p =>
    if p.2 - dictGetD process_runs p.1 ≤ eps then
      some ⟨"process_run_cap:" ++ p.1, p.2 - dictGetD process_runs p.1⟩
    else none)

/-- The tight list before sorting, in the enumeration order of
_compute_tight_constraints: edge caps, source supplies, sink demands,
process run caps. -/
def tightEnum (spec : SolveRequest) (built : LPBuild)
    (edge_flows process_runs : List (String × ℚ)) (eps : ℚ) : List TightConstraint :=
  tightEdgeCaps built edge_flows eps ++ tightSourceSupply spec built edge_flows eps
  ++ tightSinkDemand spec built edge_flows eps ++ tightProcRunCaps built process_runs eps

/-- Ordering of tight-constraint records by slack, the sort key of
_compute_tight_constraints. -/
def slackLE (x y : TightConstraint) : Prop := x.slack ≤ y.slack

instance : DecidableRel slackLE :=
  fun x y => inferInstanceAs (Decidable (x.slack ≤ y.slack))

instance : IsTotal TightConstraint slackLE :=
  ⟨fun a b => le_total a.slack b.slack⟩

instance : IsTrans TightConstraint slackLE :=
  ⟨fun _ _ _ h1 h2 => le_trans h1 h2⟩

/-- Embeds _compute_tight_constraints: enumerate, then sort ascending by
slack. Python list.sort is stable; insertion sort with the non-strict key
order keeps equal-slack records in enumeration order, which is proved
below. -/
def computeTightConstraints (spec : SolveRequest) (built : LPBuild)
    (edge_flows process_runs : List (String × ℚ)) (eps : ℚ) : List TightConstraint :=
  (tightEnum spec built edge_flows process_runs eps).insertionSort slackLE

/-- Embeds extract_solution at an explicit tolerance (the Python parameter
eps). The solver call becomes the SolverOutput argument. -/
def extractSolutionEps (spec : SolveRequest) (built : LPBuild) (sol : SolverOutput)
    (eps : ℚ) : SolveResult :=
  if statusMap sol.statusCode = SolveStatus.infeasible then
    emptyResult .infeasible (some "Model is infeasible.")
  else if statusMap sol.statusCode = SolveStatus.unbounded then
    emptyResult .unbounded (some "Model is unbounded.")
  else if statusMap sol.statusCode = SolveStatus.error then
    emptyResult .error (some (statusMessage sol.statusCode))
  else
    ⟨statusMap sol.statusCode,
     some sol.objectiveValue,
     built.edgeVarIds.map (fun eid => (eid, sol.varValue (LPVar.flow eid))),
     built.runVarIds.map (fun nid => (nid, sol.varValue (LPVar.run nid))),
     computeSinkDelivered spec built
       (built.edgeVarIds.map (fun eid => (eid, sol.varValue (LPVar.flow eid)))),
     computeTightConstraints spec built
       (built.edgeVarIds.map (fun eid => (eid, sol.varValue (LPVar.flow eid))))
       (built.runVarIds.map (fun nid => (nid, sol.varValue (LPVar.run nid)))) eps,
     if sol.statusCode = FEASIBLE then
       some "Solver returned FEASIBLE (treated as optimal)." else none⟩

/-- Embeds extract_solution called with its default eps of 1e-7, the way
solve_lp calls it. -/
def extractSolution (spec : SolveRequest) (built : LPBuild) (sol : SolverOutput) :
    SolveResult :=
  extractSolutionEps spec built sol extractEpsDefault

/-! ## Concrete requests (from tests/graph_scenario_factory.py) -/

/-- Scenario A of the spec: source of water (supply 100, cost 1), uncapped
edge, water sink (demand 50, value 10), max_profit. -/
def scenarioA : SolveRequest :=
  ⟨[⟨"src", NodeType.source, none, some ⟨"water", 100, 1⟩, none, none⟩,
    ⟨"snk", NodeType.sink, none, none, some ⟨"water", 50, 10⟩, none⟩],
   [⟨"e1", "src", "snk", "water", none, 0⟩],
   ⟨SolveMode.lp, ⟨ObjectiveKind.max_profit, none⟩⟩⟩

/-- The max_flow_objective scenario of the test factory: one source, one
sink, one edge, objective max_flow_to_sink targeting the sink. -/
def maxFlowReq : SolveRequest :=
  ⟨[⟨"src", NodeType.source, none, some ⟨"a", 100, 0⟩, none, none⟩,
    ⟨"snk", NodeType.sink, none, none, some ⟨"a", 100, 0⟩, none⟩],
   [⟨"e1", "src", "snk", "a", none, 0⟩],
   ⟨SolveMode.lp, ⟨ObjectiveKind.max_flow_to_sink, some "snk"⟩⟩⟩

/-- The duplicate-node-ids scenario of the test factory: two nodes named
n1, no edges, max_profit. -/
def dupNodeReq : SolveRequest :=
  ⟨[⟨"n1", NodeType.source, none, some ⟨"a", 10, 0⟩, none, none⟩,
    ⟨"n1", NodeType.sink, none, none, some ⟨"a", 10, 0⟩, none⟩],
   [],
   ⟨SolveMode.lp, ⟨ObjectiveKind.max_profit, none⟩⟩⟩

/-- Scenario A with the edge capped just above the optimum: cap is
50 + 1/2000000, so at the optimal flow of 50 the edge slack is 5e-7,
inside the 1e-6 tolerance but outside 1e-7. -/
def slackSpec : SolveRequest :=
  ⟨[⟨"src", NodeType.source, none, some ⟨"water", 100, 1⟩, none, none⟩,
    ⟨"snk", NodeType.sink, none, none, some ⟨"water", 50, 10⟩, none⟩],
   [⟨"e1", "src", "snk", "water", some (50 + 1 / 2000000), 0⟩],
   ⟨SolveMode.lp, ⟨ObjectiveKind.max_profit, none⟩⟩⟩

/-- The optimal solver report for slackSpec (and scenarioA): flow 50 on e1,
objective 450 = 50 times 10 minus 50 times 1. -/
def slackSol : SolverOutput :=
  ⟨OPTIMAL, fun v => if v = LPVar.flow "e1" then 50 else 0, 450⟩

/-- Does this constraint record the conservation equation of node i and
commodity c. -/
def conservationKey : LPConstraint → String → String → Bool
  | .conservation nid comm _ _ _, i, c => nid == i && comm == c
  | _, _, _ => false

/-- Is this constraint a conservation equation of node i (any commodity). -/
def isConservationOf : LPConstraint → String → Bool
  | .conservation nid _ _ _ _, i => nid == i
  | _, _ => false

/-- The process_chain scenario of the test factory: farm (wheat, supply
100, cost 1), mill (2 wheat to 1 flour, run cost 5), bakery (flour, demand
100, value 20). -/
def processChain : SolveRequest :=
  ⟨[⟨"farm", NodeType.source, none, some ⟨"wheat", 100, 1⟩, none, none⟩,
    ⟨"mill", NodeType.process, none, none, none,
      some ⟨[⟨"wheat", 2⟩], [⟨"flour", 1⟩], none, 5⟩⟩,
    ⟨"bakery", NodeType.sink, none, none, some ⟨"flour", 100, 20⟩, none⟩],
   [⟨"e1", "farm", "mill", "wheat", none, 0⟩,
    ⟨"e2", "mill", "bakery", "flour", none, 0⟩],
   ⟨SolveMode.lp, ⟨ObjectiveKind.max_profit, none⟩⟩⟩

/-- The max_profit objective exactly as the spec sentence states it: sum
over sinks of unit_value times delivered, minus sum over sources of
unit_cost times outflow, minus sum over edges of unit_cost times flow,
minus sum over process nodes of run_cost times run, where delivered and
outflow are the commodity-matching incoming and outgoing edge-flow sums of
the node itself. -/
def specProfit (req : SolveRequest) (a : Assign) : ℚ :=
  ((req.nodes.map (fun n =>
    if n.type = NodeType.sink then
      (match n.sink with
       | some sd => sd.unit_value * flowSum a (edgesByVComm req.edges n.id sd.commodity)
       | none => 0)
    else 0)).sum)
  - ((req.nodes.map (fun n =>
    if n.type = NodeType.source then
      (match n.source with
       | some sd => sd.unit_cost * flowSum a (edgesByUComm req.edges n.id sd.commodity)
       | none => 0)
    else 0)).sum)
  - ((req.edges.map (fun e => e.unit_cost * a (LPVar.flow e.id))).sum)
  - ((req.nodes.map (fun n =>
    if n.type = NodeType.process then
      (match n.process with
       | some pd => pd.run_cost * a (LPVar.run n.id)
       | none => 0)
    else 0)).sum)

/-- The optimal assignment of scenario A: flow 50 on edge e1, all other
variables zero. -/
def assignA : Assign :=
  fun v => if v = LPVar.flow "e1" then 50 else 0

/-- Equality of Except values is decidable when both component types have
decidable equality; used to evaluate the embedded checkers on concrete
requests. -/
instance {ε α : Type} [DecidableEq ε] [DecidableEq α] : DecidableEq (Except ε α) :=
  fun a b =>
    match a, b with
    | .error e, .error f =>
      if h : e = f then .isTrue (congrArg Except.error h)
      else .isFalse (fun hh => h (Except.error.inj hh))
    | .ok x, .ok y =>
      if h : x = y then .isTrue (congrArg Except.ok h)
      else .isFalse (fun hh => h (Except.ok.inj hh))
    | .error _, .ok _ => .isFalse (fun hh => Except.noConfusion hh)
    | .ok _, .error _ => .isFalse (fun hh => Except.noConfusion hh)

/-! ## Theorems -/

/-- Splitting a successful bind of unit-valued Except computations. -/
theorem bindOkUnit {x : Except DomainError Unit} {f : Unit → Except DomainError Unit}
    (h : (x >>= f) = .ok ()) : x = .ok () ∧ f () = .ok () := by
  cases x with
  | error e => simp [Bind.bind, Except.bind] at h
  | ok u => cases u; exact ⟨rfl, by simpa [Bind.bind, Except.bind] using h⟩

/-- A request the validator accepts has the max_profit objective, because
the objective stage rejects every other kind. -/
theorem validate_ok_kind {req : SolveRequest} (h : validateRequest req = .ok ()) :
    req.options.objective.kind = ObjectiveKind.max_profit := by
  unfold validateRequest at h
  obtain ⟨-, h⟩ := bindOkUnit h
  obtain ⟨-, h⟩ := bindOkUnit h
  obtain ⟨-, h⟩ := bindOkUnit h
  obtain ⟨h, -⟩ := bindOkUnit h
  unfold checkObjective at h
  by_contra hk
  simp [hk] at h

/-- Claim C10: normalize_request is the identity function on SolveRequest,
so the normalization step before validation changes nothing. -/
theorem normalize_request_identity : ∀ req : SolveRequest, normalize_request req = req :=
  fun _ => rfl

/-- Claim C9: a NodeSpec accepted by the schema model validator has the
payload field matching its type present and both foreign payload fields
absent. -/
theorem schema_payload_matches_type : ∀ n m : NodeSpec,
    checkPayloadMatchesType n = .ok m →
    ((n.type = NodeType.source → n.source.isSome ∧ n.sink = none ∧ n.process = none) ∧
     (n.type = NodeType.sink → n.sink.isSome ∧ n.source = none ∧ n.process = none) ∧
     (n.type = NodeType.process → n.process.isSome ∧ n.source = none ∧ n.sink = none)) := by
  intro n m h
  cases ht : n.type <;>
    cases hs : n.source <;> cases hk : n.sink <;> cases hp : n.process <;>
    simp_all [checkPayloadMatchesType]

/-- Witness for C9 at the source node of scenario A. -/
theorem schema_payload_matches_type_witness :
    (⟨"src", NodeType.source, none, some ⟨"water", 100, 1⟩, none, none⟩ :
        NodeSpec).source.isSome = true :=
  ((schema_payload_matches_type
      ⟨"src", NodeType.source, none, some ⟨"water", 100, 1⟩, none, none⟩
      ⟨"src", NodeType.source, none, some ⟨"water", 100, 1⟩, none, none⟩
      (by decide)).1 rfl).1

/-- Claim C2 names behaviour the code contradicts: on the factory
max_flow_objective request (kind max_flow_to_sink, sink_node_id snk, snk an
existing sink node) validate_request raises the not-implemented domain
error, because the objective stage accepts only max_profit. -/
theorem validate_rejects_max_flow_to_sink :
    validateRequest maxFlowReq =
      .error (.objectiveNotImplemented ObjectiveKind.max_flow_to_sink) := by decide

/-- Counterexample to claim C3: the duplicate-node-ids request is rejected
by the validator, yet build_lp compiles it without any error, so the
compiler does not repeat the Validator checks. -/
theorem buildLP_accepts_validator_rejected :
    validateRequest dupNodeReq = .error DomainError.dupNodeIds ∧
      (buildLP dupNodeReq).toOption.isSome = true := by
  constructor <;> decide

/-- Claim C3 as amended: the compiler fails with a domain error exactly
when the objective kind is max_flow_to_sink and sink_node_id is unset; it
repeats none of the Validator checks 1 to 5. -/
theorem buildLP_error_iff : ∀ req : SolveRequest,
    (buildLP req).toOption = none ↔
      (req.options.objective.kind = ObjectiveKind.max_flow_to_sink ∧
        req.options.objective.sink_node_id = none) := by
  intro req
  unfold buildLP
  cases hk : req.options.objective.kind <;>
    cases hs : req.options.objective.sink_node_id <;>
    simp [hk, hs, Except.toOption]

/-- Claim C8: every request the validator accepts compiles, because
acceptance forces the max_profit objective and the only compiler error
path needs kind max_flow_to_sink. -/
theorem validated_requests_compile : ∀ req : SolveRequest,
    validateRequest req = .ok () → (buildLP req).toOption.isSome = true := by
  intro req h
  have hk := validate_ok_kind h
  unfold buildLP
  rw [hk]
  simp [Except.toOption]

/-- Witness for C8 at scenario A. -/
theorem validated_requests_compile_witness :
    (buildLP scenarioA).toOption.isSome = true :=
  validated_requests_compile scenarioA (by decide)

/-- Claim C7: a non-optimal extracted result carries empty flow, run and
delivered maps, an empty tight list and no objective value, and the
objective value is present exactly on optimal results. -/
theorem extract_nonoptimal_is_empty : ∀ (spec : SolveRequest) (built : LPBuild)
    (sol : SolverOutput) (eps : ℚ),
    (((extractSolutionEps spec built sol eps).status ≠ SolveStatus.optimal →
      (extractSolutionEps spec built sol eps).edge_flows = [] ∧
      (extractSolutionEps spec built sol eps).process_runs = [] ∧
      (extractSolutionEps spec built sol eps).sink_delivered = [] ∧
      (extractSolutionEps spec built sol eps).tight_constraints = [] ∧
      (extractSolutionEps spec built sol eps).objective_value = none) ∧
     ((extractSolutionEps spec built sol eps).objective_value.isSome ↔
      (extractSolutionEps spec built sol eps).status = SolveStatus.optimal)) := by
  intro spec built sol eps
  unfold extractSolutionEps
  cases hsm : statusMap sol.statusCode <;> simp [hsm, emptyResult]

/-- A loop of checks succeeds exactly when every individual check does. -/
theorem checkAll_ok_iff {α : Type} (f : α → Except DomainError Unit) (l : List α) :
    checkAll f l = .ok () ↔ ∀ x ∈ l, f x = .ok () := by
  induction l with
  | nil => simp [checkAll]
  | cons a t ih =>
    constructor
    · intro h
      obtain ⟨h1, h2⟩ := bindOkUnit h
      intro x hx
      rcases List.mem_cons.mp hx with rfl | hx
      · exact h1
      · exact ih.mp h2 x hx
    · intro h
      have ha : f a = .ok () := h a (by simp)
      have ht : checkAll f t = .ok () := ih.mpr (fun x hx => h x (by simp [hx]))
      simp [checkAll, Bind.bind, Except.bind, ha, ht]

/-- The producer list of a commodity is empty exactly when no node produces
it. -/
theorem producersOf_isEmpty_iff (nodes : List NodeSpec) (c : String) :
    (producersOf nodes c).isEmpty = true ↔ ∀ m ∈ nodes, ¬ producesComm m c = true := by
  simp [producersOf, List.isEmpty_iff, List.map_eq_nil_iff, List.filter_eq_nil_iff]

/-- Claim C6: the reachability stage succeeds exactly when every sink node
with positive demand cap has some producer of its commodity and the reverse
breadth-first traversal restricted to edges of that commodity reaches a
producer from the sink; sinks with demand cap zero (or below) impose no
condition at all. -/
theorem sink_reachability_iff : ∀ req : SolveRequest,
    validateSinkReachability req = .ok () ↔
    ∀ n ∈ req.nodes, ∀ sd : SinkData, n.type = NodeType.sink → n.sink = some sd →
      0 < sd.demand_cap →
      ((∃ m ∈ req.nodes, producesComm m sd.commodity = true) ∧
       reverseReachableFromAnyProducer req.edges sd.commodity
         (producersOf req.nodes sd.commodity) n.id = true) := by
  intro req
  rw [validateSinkReachability, checkAll_ok_iff]
  constructor
  · intro h n hn sd ht hsk hdc
    have hch := h n hn
    rw [sinkReachCheck, if_pos ht, hsk] at hch
    dsimp only at hch
    rw [if_neg (not_le.mpr hdc)] at hch
    by_cases hemp : (producersOf req.nodes sd.commodity).isEmpty = true
    · rw [if_pos hemp] at hch; cases hch
    · rw [if_neg hemp] at hch
      refine ⟨?_, ?_⟩
      · by_contra hex
        push_neg at hex
        exact hemp ((producersOf_isEmpty_iff req.nodes sd.commodity).mpr
          (fun m hm => by simpa using hex m hm))
      · by_cases hre : reverseReachableFromAnyProducer req.edges sd.commodity
            (producersOf req.nodes sd.commodity) n.id = true
        · exact hre
        · rw [if_neg hre] at hch; cases hch
  · intro h n hn
    rw [sinkReachCheck]
    by_cases ht : n.type = NodeType.sink
    · rw [if_pos ht]
      cases hsk : n.sink with
      | none => rfl
      | some sd =>
        dsimp only
        by_cases hdc : sd.demand_cap ≤ 0
        · rw [if_pos hdc]
        · rw [if_neg hdc]
          obtain ⟨hex, hre⟩ := h n hn sd ht hsk (not_le.mp hdc)
          have hemp : ¬ (producersOf req.nodes sd.commodity).isEmpty = true := by
            intro habs
            obtain ⟨m, hm, hpm⟩ := hex
            exact ((producersOf_isEmpty_iff req.nodes sd.commodity).mp habs) m hm hpm
          rw [if_neg hemp, if_pos hre]
    · rw [if_neg ht]

/-- Every successful build carries the same constraint list and auxiliary
maps, whichever objective kind was chosen. -/
theorem buildLP_ok_fields {req : SolveRequest} {b : LPBuild} (hb : buildLP req = .ok b) :
    b.constraints = allConstraints req ∧
    b.edge_caps = edgeCaps req.edges ∧
    b.source_supply_caps = sourceSupplyCaps req.nodes ∧
    b.sink_demand_caps = sinkDemandCaps req.nodes ∧
    b.proc_run_caps = procRunCaps req.nodes ∧
    b.edgesByU = edgesByUComm req.edges ∧
    b.edgesByV = edgesByVComm req.edges ∧
    b.edgeVarIds = req.edges.map (fun e => e.id) ∧
    b.runVarIds = (req.nodes.filter (fun n => n.type = NodeType.process)).map
      (fun n => n.id) := by
  unfold buildLP at hb
  cases hk : req.options.objective.kind <;> rw [hk] at hb
  · have hbe := Except.ok.inj hb
    subst hbe
    exact ⟨rfl, rfl, rfl, rfl, rfl, rfl, rfl, rfl, rfl⟩
  · cases hs : req.options.objective.sink_node_id <;> rw [hs] at hb
    · exact Except.noConfusion hb
    · have hbe := Except.ok.inj hb
      subst hbe
      exact ⟨rfl, rfl, rfl, rfl, rfl, rfl, rfl, rfl, rfl⟩

/-- Conservation keys match nothing in the edge-capacity segment. -/
theorem key_nil_edgeCaps (edges : List EdgeSpec) (i c : String) :
    (edgeCapConstraints edges).filter (fun con => conservationKey con i c) = [] := by
  apply List.filter_eq_nil_iff.mpr
  intro con hcon
  obtain ⟨e, he, hf⟩ := List.mem_filterMap.mp hcon
  cases hcap : e.cap with
  | none => rw [hcap] at hf; cases hf
  | some cp => rw [hcap] at hf; cases hf; simp [conservationKey]

/-- Conservation keys match nothing in the source-supply segment. -/
theorem key_nil_supply (req : SolveRequest) (i c : String) :
    (supplyConstraints req).filter (fun con => conservationKey con i c) = [] := by
  apply List.filter_eq_nil_iff.mpr
  intro con hcon
  obtain ⟨n, hn, hf⟩ := List.mem_filterMap.mp hcon
  by_cases ht : n.type = NodeType.source
  · rw [if_pos ht] at hf
    cases hsp : n.source with
    | none => rw [hsp] at hf; cases hf
    | some sd => rw [hsp] at hf; cases hf; simp [conservationKey]
  · rw [if_neg ht] at hf; cases hf

/-- Conservation keys match nothing in the sink-demand segment. -/
theorem key_nil_demand (req : SolveRequest) (i c : String) :
    (demandConstraints req).filter (fun con => conservationKey con i c) = [] := by
  apply List.filter_eq_nil_iff.mpr
  intro con hcon
  obtain ⟨n, hn, hf⟩ := List.mem_filterMap.mp hcon
  by_cases ht : n.type = NodeType.sink
  · rw [if_pos ht] at hf
    cases hsp : n.sink with
    | none => rw [hsp] at hf; cases hf
    | some sd => rw [hsp] at hf; cases hf; simp [conservationKey]
  · rw [if_neg ht] at hf; cases hf

/-- Conservation keys match nothing in the run-cap segment. -/
theorem key_nil_runCap (req : SolveRequest) (i c : String) :
    (runCapConstraints req).filter (fun con => conservationKey con i c) = [] := by
  apply List.filter_eq_nil_iff.mpr
  intro con hcon
  obtain ⟨n, hn, hf⟩ := List.mem_filterMap.mp hcon
  by_cases ht : n.type = NodeType.process
  · rw [if_pos ht] at hf
    cases hsp : n.process with
    | none => rw [hsp] at hf; cases hf
    | some pd =>
      rw [hsp] at hf
      dsimp only at hf
      cases hrc : pd.run_cap with
      | none => rw [hrc] at hf; cases hf
      | some cp => rw [hrc] at hf; cases hf; simp [conservationKey]
  · rw [if_neg ht] at hf; cases hf

/-- Conservation keys match nothing in the topology safety-net segment. -/
theorem key_nil_topology (req : SolveRequest) (i c : String) :
    (topologyConstraints req).filter (fun con => conservationKey con i c) = [] := by
  apply List.filter_eq_nil_iff.mpr
  intro con hcon
  rw [topologyConstraints, List.mem_flatten] at hcon
  obtain ⟨l, hl, hconl⟩ := hcon
  rw [List.mem_map] at hl
  obtain ⟨n, hn, rfl⟩ := hl
  rw [topologyConstraintsFor, List.mem_filterMap] at hconl
  obtain ⟨c0, hc0, hf⟩ := hconl
  by_cases h1 : n.type = NodeType.source
  · rw [if_pos h1] at hf
    by_cases h2 : (edgesByVComm req.edges n.id c0).isEmpty = true
    · rw [if_pos h2] at hf; cases hf
    · rw [if_neg h2] at hf; cases hf; simp [conservationKey]
  · rw [if_neg h1] at hf
    by_cases h2 : n.type = NodeType.sink
    · rw [if_pos h2] at hf
      by_cases h3 : (edgesByUComm req.edges n.id c0).isEmpty = true
      · rw [if_pos h3] at hf; cases hf
      · rw [if_neg h3] at hf; cases hf; simp [conservationKey]
    · rw [if_neg h2] at hf; cases hf

/-- Filtered membership for a constraint whose conservation key holds. -/
theorem mem_filter_key {l : List LPConstraint} {con : LPConstraint} {i c : String}
    (h : con ∈ l) (hk : conservationKey con i c = true) :
    con ∈ l.filter (fun x => conservationKey x i c) := by
  rw [List.mem_filter]
  exact ⟨h, hk⟩

/-- The commodity list of a network has no duplicates. -/
theorem commoditiesOf_nodup (req : SolveRequest) : (commoditiesOf req).Nodup := by
  rw [commoditiesOf]
  exact List.nodup_dedup _

/-- A constraint of the compiled list that is a conservation equation lies
in the conservation segment: the five other segments contain none. -/
theorem cons_shape_mem {req : SolveRequest} {con : LPConstraint}
    (hm : con ∈ allConstraints req) (nid comm : String) (oE iE : List String) (q : ℚ)
    (hcon : con = LPConstraint.conservation nid comm oE iE q) :
    con ∈ conservationConstraints req := by
  have hkey : conservationKey con nid comm = true := by subst hcon; simp [conservationKey]
  rw [allConstraints] at hm
  rcases List.mem_append.mp hm with hm | hF
  · rcases List.mem_append.mp hm with hm | hE
    · rcases List.mem_append.mp hm with hm | hD
      · rcases List.mem_append.mp hm with hm | hC
        · rcases List.mem_append.mp hm with hA | hB
          · have hx := mem_filter_key hA hkey
            rw [key_nil_edgeCaps] at hx; cases hx
          · have hx := mem_filter_key hB hkey
            rw [key_nil_supply] at hx; cases hx
        · have hx := mem_filter_key hC hkey
          rw [key_nil_demand] at hx; cases hx
      · have hx := mem_filter_key hD hkey
        rw [key_nil_runCap] at hx; cases hx
    · have hx := mem_filter_key hE hkey
      rw [key_nil_topology] at hx; cases hx
  · exact hF

/-- The conservation generator on a process node with payload. -/
theorem consGen_eq {edges : List EdgeSpec} {n : NodeSpec} {pd : ProcessData}
    (c : String) (ht : n.type = NodeType.process) (hp : n.process = some pd) :
    consGen edges n c = some (LPConstraint.conservation n.id c
      (edgesByUComm edges n.id c) (edgesByVComm edges n.id c)
      (producedQty pd c - consumedQty pd c)) := by
  rw [consGen, if_pos ht, hp]

/-- What a successful conservation generation implies about the node and
the produced constraint. -/
theorem consGen_shape {edges : List EdgeSpec} {n : NodeSpec} {c : String}
    {con : LPConstraint} (h : consGen edges n c = some con) :
    ∃ pd : ProcessData, n.type = NodeType.process ∧ n.process = some pd ∧
      con = LPConstraint.conservation n.id c (edgesByUComm edges n.id c)
        (edgesByVComm edges n.id c) (producedQty pd c - consumedQty pd c) := by
  rw [consGen] at h
  by_cases ht : n.type = NodeType.process
  · rw [if_pos ht] at h
    cases hp : n.process with
    | none => rw [hp] at h; cases h
    | some pd => rw [hp] at h; cases h; exact ⟨pd, ht, rfl, rfl⟩
  · rw [if_neg ht] at h; cases h

/-- Membership in the conservation segment, characterised: exactly the
equations of process nodes with payload, one per commodity present in the
network, with the adjacency and the produced-minus-consumed net of the
recipe. -/
theorem mem_conservation_iff {req : SolveRequest} {con : LPConstraint} :
    con ∈ conservationConstraints req ↔
    ∃ n ∈ req.nodes, ∃ pd : ProcessData, n.type = NodeType.process ∧
      n.process = some pd ∧
      ∃ c ∈ commoditiesOf req,
        con = .conservation n.id c (edgesByUComm req.edges n.id c)
          (edgesByVComm req.edges n.id c) (producedQty pd c - consumedQty pd c) := by
  constructor
  · intro h
    rw [conservationConstraints, List.mem_flatten] at h
    obtain ⟨l, hl, hcon⟩ := h
    rw [List.mem_map] at hl
    obtain ⟨n, hn, rfl⟩ := hl
    rw [conservationConstraintsFor, List.mem_filterMap] at hcon
    obtain ⟨c, hc, hf⟩ := hcon
    obtain ⟨pd, ht, hp, rfl⟩ := consGen_shape hf
    exact ⟨n, hn, pd, ht, hp, c, hc, rfl⟩
  · rintro ⟨n, hn, pd, ht, hp, c, hc, rfl⟩
    rw [conservationConstraints, List.mem_flatten]
    refine ⟨conservationConstraintsFor req.edges (commoditiesOf req) n,
      List.mem_map_of_mem _ hn, ?_⟩
    rw [conservationConstraintsFor, List.mem_filterMap]
    exact ⟨c, hc, consGen_eq c ht hp⟩

/-- Filtering distributes through the flatten of mapped lists. -/
theorem filter_flatten_map {β : Type} (key : LPConstraint → Bool)
    (f : β → List LPConstraint) (l : List β) :
    ((l.map f).flatten).filter key = (l.map (fun x => (f x).filter key)).flatten := by
  induction l with
  | nil => rfl
  | cons a t ih => simp [List.filter_append, ih]

/-- The conservation equations of a node whose id differs match no key of
the other id. -/
theorem filter_key_consFor_other {edges : List EdgeSpec} {comms : List String}
    {n : NodeSpec} {i c : String} (hne : ¬ n.id = i) :
    (conservationConstraintsFor edges comms n).filter
      (fun con => conservationKey con i c) = [] := by
  apply List.filter_eq_nil_iff.mpr
  intro con hcon
  rw [conservationConstraintsFor, List.mem_filterMap] at hcon
  obtain ⟨c0, hc0, hf⟩ := hcon
  obtain ⟨pd, ht, hp, rfl⟩ := consGen_shape hf
  simp [conservationKey, hne]

/-- The conservation equations of a node over commodities not containing c
match no key of c. -/
theorem filter_key_consFor_notmem {edges : List EdgeSpec} {comms : List String}
    {p : NodeSpec} {c : String} (hc : c ∉ comms) :
    (conservationConstraintsFor edges comms p).filter
      (fun con => conservationKey con p.id c) = [] := by
  apply List.filter_eq_nil_iff.mpr
  intro con hcon
  rw [conservationConstraintsFor, List.mem_filterMap] at hcon
  obtain ⟨c0, hc0, hf⟩ := hcon
  obtain ⟨pd, ht, hp, rfl⟩ := consGen_shape hf
  have hne : ¬ c0 = c := fun he => hc (he ▸ hc0)
  simp [conservationKey, hne]

/-- The conservation equations of a process node keep exactly one equation
per commodity of a duplicate-free commodity list. -/
theorem filter_key_consFor_self {edges : List EdgeSpec} {comms : List String}
    {p : NodeSpec} {pd : ProcessData} {c : String}
    (ht : p.type = NodeType.process) (hp : p.process = some pd)
    (hnd : comms.Nodup) (hc : c ∈ comms) :
    (conservationConstraintsFor edges comms p).filter
      (fun con => conservationKey con p.id c) =
      [.conservation p.id c (edgesByUComm edges p.id c) (edgesByVComm edges p.id c)
        (producedQty pd c - consumedQty pd c)] := by
  induction comms with
  | nil => cases hc
  | cons c0 t ih =>
    rw [conservationConstraintsFor, List.filterMap_cons, consGen_eq c0 ht hp]
    dsimp only
    rw [show List.filterMap (consGen edges p) t =
      conservationConstraintsFor edges t p from rfl]
    by_cases hcc : c0 = c
    · subst hcc
      have hct : c0 ∉ t := (List.nodup_cons.mp hnd).1
      have h0 := @filter_key_consFor_notmem edges t p c0 hct
      have hkey : conservationKey (LPConstraint.conservation p.id c0
          (edgesByUComm edges p.id c0) (edgesByVComm edges p.id c0)
          (producedQty pd c0 - consumedQty pd c0)) p.id c0 = true := by
        simp [conservationKey]
      simp [List.filter_cons, hkey, h0]
    · have hkey : conservationKey (LPConstraint.conservation p.id c0
          (edgesByUComm edges p.id c0) (edgesByVComm edges p.id c0)
          (producedQty pd c0 - consumedQty pd c0)) p.id c = false := by
        simp [conservationKey, hcc]
      rw [List.filter_cons]
      simp only [hkey, Bool.false_eq_true, if_false]
      exact ih (List.nodup_cons.mp hnd).2
        ((List.mem_cons.mp hc).resolve_left (fun he => hcc he.symm))

/-- Claim C1: the compiled LP holds, for every process node p with payload
and every commodity c present anywhere in the network, exactly one
conservation equation, and it says outflow minus inflow equals run times
produced-minus-consumed; source and sink nodes receive no conservation
equation; and every conservation equation in the model arises this way. -/
theorem conservation_constraints_exact : ∀ (req : SolveRequest) (b : LPBuild),
    buildLP req = .ok b → (req.nodes.map (fun n => n.id)).Nodup →
    ((∀ p ∈ req.nodes, ∀ pd : ProcessData, p.type = NodeType.process →
      p.process = some pd → ∀ c ∈ commoditiesOf req,
        (b.constraints.filter (fun con => conservationKey con p.id c) =
          [LPConstraint.conservation p.id c (edgesByUComm req.edges p.id c)
            (edgesByVComm req.edges p.id c) (producedQty pd c - consumedQty pd c)]) ∧
        (∀ a : Assign,
          (LPConstraint.conservation p.id c (edgesByUComm req.edges p.id c)
            (edgesByVComm req.edges p.id c)
            (producedQty pd c - consumedQty pd c)).holds a ↔
          flowSum a (edgesByUComm req.edges p.id c) -
            flowSum a (edgesByVComm req.edges p.id c) =
            a (LPVar.run p.id) * (producedQty pd c - consumedQty pd c))) ∧
     (∀ n ∈ req.nodes, n.type = NodeType.source ∨ n.type = NodeType.sink →
       ∀ con ∈ b.constraints, isConservationOf con n.id = false) ∧
     (∀ con ∈ b.constraints, ∀ (nid comm : String) (oE iE : List String) (q : ℚ),
       con = LPConstraint.conservation nid comm oE iE q →
       ∃ n ∈ req.nodes, ∃ pd : ProcessData, n.id = nid ∧
         n.type = NodeType.process ∧ n.process = some pd ∧
         comm ∈ commoditiesOf req ∧
         oE = edgesByUComm req.edges nid comm ∧
         iE = edgesByVComm req.edges nid comm ∧
         q = producedQty pd comm - consumedQty pd comm)) := by
  intro req b hb hnd
  obtain ⟨hcons, -⟩ := buildLP_ok_fields hb
  refine ⟨?_, ?_, ?_⟩
  · intro p hp pd ht hpd c hc
    refine ⟨?_, fun a => Iff.rfl⟩
    rw [hcons, allConstraints]
    rw [List.filter_append, List.filter_append, List.filter_append,
      List.filter_append, List.filter_append]
    rw [key_nil_edgeCaps, key_nil_supply, key_nil_demand, key_nil_runCap,
      key_nil_topology]
    simp only [List.nil_append]
    rw [conservationConstraints, filter_flatten_map]
    obtain ⟨l₁, l₂, hsplit⟩ := List.append_of_mem hp
    have hmid : p.id ∉ (l₁.map (fun x => x.id)) ++ (l₂.map (fun x => x.id)) := by
      have h2 : ((l₁.map (fun x => x.id)) ++ p.id :: (l₂.map (fun x => x.id))).Nodup := by
        rw [hsplit] at hnd
        simpa using hnd
      exact (List.nodup_cons.mp (List.nodup_middle.mp h2)).1
    rw [hsplit, List.map_append, List.map_cons, List.flatten_append,
      List.flatten_cons]
    have hl₁ : (l₁.map (fun x => (conservationConstraintsFor req.edges
        (commoditiesOf req) x).filter (fun con => conservationKey con p.id c))).flatten
        = [] := by
      apply List.flatten_eq_nil_iff.mpr
      intro l hl
      obtain ⟨n, hn, rfl⟩ := List.mem_map.mp hl
      apply filter_key_consFor_other
      intro he
      exact hmid (List.mem_append.mpr (Or.inl (he ▸ List.mem_map_of_mem _ hn)))
    have hl₂ : (l₂.map (fun x => (conservationConstraintsFor req.edges
        (commoditiesOf req) x).filter (fun con => conservationKey con p.id c))).flatten
        = [] := by
      apply List.flatten_eq_nil_iff.mpr
      intro l hl
      obtain ⟨n, hn, rfl⟩ := List.mem_map.mp hl
      apply filter_key_consFor_other
      intro he
      exact hmid (List.mem_append.mpr (Or.inr (he ▸ List.mem_map_of_mem _ hn)))
    rw [hl₁, hl₂, filter_key_consFor_self ht hpd (commoditiesOf_nodup req) hc]
    simp
  · intro n hn hty con hconmem
    by_contra habs
    rw [Bool.not_eq_false] at habs
    cases con with
    | conservation nid comm oE iE q =>
      have hnid : nid = n.id := by simpa [isConservationOf] using habs
      have hc2 : LPConstraint.conservation nid comm oE iE q ∈
          conservationConstraints req := by
        apply cons_shape_mem _ nid comm oE iE q rfl
        rw [hcons] at hconmem
        exact hconmem
      obtain ⟨n', hn', pd, ht', hp', c, hcv, heq⟩ := mem_conservation_iff.mp hc2
      injection heq with h1 h2 h3 h4 h5
      have hnn : n' = n :=
        List.inj_on_of_nodup_map hnd hn' hn (by rw [← h1, hnid])
      rw [hnn] at ht'
      rcases hty with h | h <;> rw [h] at ht' <;> cases ht'
    | capEdge eid cap => simp [isConservationOf] at habs
    | supply nid outE cap => simp [isConservationOf] at habs
    | demand nid inE cap => simp [isConservationOf] at habs
    | runCap nid cap => simp [isConservationOf] at habs
    | noInToSource nid comm inE => simp [isConservationOf] at habs
    | noOutFromSink nid comm outE => simp [isConservationOf] at habs
  · intro con hconmem nid comm oE iE q hcon
    have hc2 : con ∈ conservationConstraints req := by
      apply cons_shape_mem _ nid comm oE iE q hcon
      rw [hcons] at hconmem
      exact hconmem
    obtain ⟨n, hn, pd, ht, hp, c, hcv, heq⟩ := mem_conservation_iff.mp hc2
    rw [hcon] at heq
    injection heq with h1 h2 h3 h4 h5
    refine ⟨n, hn, pd, h1.symm, ht, hp, ?_, ?_, ?_, ?_⟩
    · rw [h2]; exact hcv
    · rw [h1, h2]; exact h3
    · rw [h1, h2]; exact h4
    · rw [h2]; exact h5

/-- Finding the unique entry of a key in an association list whose keys do
not repeat. -/
theorem find?_key_unique {α : Type} {l : List (String × α)} {k : String} {v : α}
    (hnd : (l.map Prod.fst).Nodup) (hm : (k, v) ∈ l) :
    l.find? (fun p => p.1 == k) = some (k, v) := by
  induction l with
  | nil => cases hm
  | cons a t ih =>
    rcases List.mem_cons.mp hm with rfl | hm2
    · exact List.find?_cons_of_pos _ (by simp)
    · have hk : a.1 ≠ k := by
        intro he
        have hmem : k ∈ t.map Prod.fst := by
          simpa using List.mem_map_of_mem Prod.fst hm2
        rw [List.map_cons] at hnd
        exact (List.nodup_cons.mp hnd).1 (he ▸ hmem)
      rw [List.find?_cons_of_neg _ (by simp [hk])]
      exact ih (by rw [List.map_cons] at hnd; exact (List.nodup_cons.mp hnd).2) hm2

/-- A dict lookup in an association list with unique keys returns the
stored value. -/
theorem dictLookup_eq_of_mem_nodup {α : Type} {l : List (String × α)} {k : String}
    {v : α} (hnd : (l.map Prod.fst).Nodup) (hm : (k, v) ∈ l) :
    dictLookup l k = some v := by
  rw [dictLookup, find?_key_unique ?hn (List.mem_reverse.mpr hm)]
  case hn =>
    rw [List.map_reverse]
    exact List.nodup_reverse.mpr hnd
  rfl

/-- The keys of a keyed filterMap form a sublist of the keys of the
underlying list. -/
theorem keys_filterMap_sublist {α β : Type} (l : List α)
    (f : α → Option (String × β)) (key : α → String)
    (hkey : ∀ x p, f x = some p → p.1 = key x) :
    ((l.filterMap f).map Prod.fst).Sublist (l.map key) := by
  induction l with
  | nil => simp
  | cons a t ih =>
    rw [List.filterMap_cons]
    cases hf : f a with
    | none => exact ih.cons _
    | some p =>
      rw [List.map_cons, List.map_cons, hkey a p hf]
      exact ih.cons₂ _

/-- The sink-delivered dict is keyed by node ids, without repetition when
node ids do not repeat. -/
theorem sinkDeliveredEdges_keys_sublist (req : SolveRequest) :
    ((sinkDeliveredEdges req).map Prod.fst).Sublist (req.nodes.map (fun n => n.id)) := by
  rw [sinkDeliveredEdges]
  refine keys_filterMap_sublist req.nodes _ (fun n => n.id) ?_
  intro x p hf
  by_cases ht : x.type = NodeType.sink
  · rw [if_pos ht] at hf
    cases hs : x.sink with
    | none => rw [hs] at hf; cases hf
    | some sd => rw [hs] at hf; cases hf; rfl
  · rw [if_neg ht] at hf; cases hf

/-- The source-outflow dict is keyed by node ids, without repetition when
node ids do not repeat. -/
theorem sourceOutflowEdges_keys_sublist (req : SolveRequest) :
    ((sourceOutflowEdges req).map Prod.fst).Sublist (req.nodes.map (fun n => n.id)) := by
  rw [sourceOutflowEdges]
  refine keys_filterMap_sublist req.nodes _ (fun n => n.id) ?_
  intro x p hf
  by_cases ht : x.type = NodeType.source
  · rw [if_pos ht] at hf
    cases hs : x.source with
    | none => rw [hs] at hf; cases hf
    | some sd => rw [hs] at hf; cases hf; rfl
  · rw [if_neg ht] at hf; cases hf

/-- Claim C4: under the max_profit objective, the compiled objective equals
the spec formula: sink revenue minus source cost minus edge cost minus
process run cost, with delivered and outflow the commodity-matching
incoming and outgoing edge-flow sums. -/
theorem max_profit_objective_formula : ∀ (req : SolveRequest) (b : LPBuild) (a : Assign),
    buildLP req = .ok b → req.options.objective.kind = ObjectiveKind.max_profit →
    (req.nodes.map (fun n => n.id)).Nodup →
    b.objective a = specProfit req a := by
  intro req b a hb hk hnd
  have hobj : b.objective = profitObjective req := by
    unfold buildLP at hb
    rw [hk] at hb
    have hbe := Except.ok.inj hb
    subst hbe
    rfl
  rw [hobj, profitObjective, specProfit]
  have hsink : (req.nodes.map (fun n =>
      if n.type = NodeType.sink then
        (match n.sink with
         | some sd => sd.unit_value *
            flowSum a ((dictLookup (sinkDeliveredEdges req) n.id).getD [])
         | none => 0)
      else 0)) = (req.nodes.map (fun n =>
      if n.type = NodeType.sink then
        (match n.sink with
         | some sd => sd.unit_value *
            flowSum a (edgesByVComm req.edges n.id sd.commodity)
         | none => 0)
      else 0)) := by
    apply List.map_congr_left
    intro n hn
    by_cases ht : n.type = NodeType.sink
    · rw [if_pos ht, if_pos ht]
      cases hs : n.sink with
      | none => rfl
      | some sd =>
        have hmem : (n.id, edgesByVComm req.edges n.id sd.commodity) ∈
            sinkDeliveredEdges req :=
          List.mem_filterMap.mpr ⟨n, hn, by rw [if_pos ht, hs]⟩
        have hkeys : ((sinkDeliveredEdges req).map Prod.fst).Nodup :=
          (sinkDeliveredEdges_keys_sublist req).nodup hnd
        rw [dictLookup_eq_of_mem_nodup hkeys hmem]
        rfl
    · rw [if_neg ht, if_neg ht]
  have hsource : (req.nodes.map (fun n =>
      if n.type = NodeType.source then
        (match n.source with
         | some sd => sd.unit_cost *
            flowSum a ((dictLookup (sourceOutflowEdges req) n.id).getD [])
         | none => 0)
      else 0)) = (req.nodes.map (fun n =>
      if n.type = NodeType.source then
        (match n.source with
         | some sd => sd.unit_cost *
            flowSum a (edgesByUComm req.edges n.id sd.commodity)
         | none => 0)
      else 0)) := by
    apply List.map_congr_left
    intro n hn
    by_cases ht : n.type = NodeType.source
    · rw [if_pos ht, if_pos ht]
      cases hs : n.source with
      | none => rfl
      | some sd =>
        have hmem : (n.id, edgesByUComm req.edges n.id sd.commodity) ∈
            sourceOutflowEdges req :=
          List.mem_filterMap.mpr ⟨n, hn, by rw [if_pos ht, hs]⟩
        have hkeys : ((sourceOutflowEdges req).map Prod.fst).Nodup :=
          (sourceOutflowEdges_keys_sublist req).nodup hnd
        rw [dictLookup_eq_of_mem_nodup hkeys hmem]
        rfl
    · rw [if_neg ht, if_neg ht]
  rw [hsink, hsource]

/-- Witness for C4: at scenario A with flow 50 on e1, the compiled
objective evaluates to 450 = 50 x 10 - 50 x 1. -/
theorem max_profit_objective_formula_witness :
    (buildLP scenarioA).toOption.map (fun b => b.objective assignA) = some 450 := by
  cases hcase : buildLP scenarioA with
  | error e =>
    have hOk : (buildLP scenarioA).toOption.isSome = true := by decide
    rw [hcase] at hOk
    simp [Except.toOption] at hOk
  | ok b =>
    have H := max_profit_objective_formula scenarioA b assignA hcase rfl (by decide)
    simp only [Except.toOption, Option.map_some']
    rw [H]
    simp [specProfit, scenarioA, assignA, flowSum, edgesByUComm, edgesByVComm]
    norm_num

/-- Witness for C1: at the process chain, the mill node holds exactly one
conservation equation for flour, over outgoing edge e2, no incoming flour
edge, and net one flour per run. -/
theorem conservation_constraints_exact_witness :
    (buildLP processChain).toOption.map (fun b =>
      b.constraints.filter (fun con => conservationKey con "mill" "flour")) =
    some [LPConstraint.conservation "mill" "flour" ["e2"] [] (1 - 0)] := by
  cases hcase : buildLP processChain with
  | error e =>
    have hOk : (buildLP processChain).toOption.isSome = true := by decide
    rw [hcase] at hOk
    simp [Except.toOption] at hOk
  | ok b =>
    have hmill : (⟨"mill", NodeType.process, none, none, none,
        some ⟨[⟨"wheat", 2⟩], [⟨"flour", 1⟩], none, 5⟩⟩ : NodeSpec) ∈
        processChain.nodes := by decide
    have H := ((conservation_constraints_exact processChain b hcase (by decide)).1
      ⟨"mill", NodeType.process, none, none, none,
        some ⟨[⟨"wheat", 2⟩], [⟨"flour", 1⟩], none, 5⟩⟩ hmill
      ⟨[⟨"wheat", 2⟩], [⟨"flour", 1⟩], none, 5⟩ rfl rfl "flour" (by decide)).1
    dsimp only at H
    simp only [Except.toOption, Option.map_some']
    rw [H]
    simp [edgesByUComm, edgesByVComm, producedQty, consumedQty, processChain]

/-- String append acts on the underlying character lists. -/
theorem string_data_append (s t : String) : (s ++ t).data = s.data ++ t.data := rfl

/-- Appending to a fixed prefix is injective. -/
theorem strAppend_left_inj {p a b : String} (h : p ++ a = p ++ b) : a = b := by
  have hd := congrArg String.data h
  rw [string_data_append, string_data_append] at hd
  have hd2 := List.append_cancel_left hd
  cases a
  cases b
  exact congrArg String.mk (by simpa using hd2)

/-- Strings whose first three characters differ are different. -/
theorem ne_of_take3_ne {s t : String} (h : ¬ s.data.take 3 = t.data.take 3) :
    ¬ s = t :=
  fun he => h (congrArg (fun x : String => x.data.take 3) he)

/-- First characters of the edge_cap category prefix. -/
theorem take3_edge (a : String) : ("edge_cap:" ++ a).data.take 3 = ['e', 'd', 'g'] := rfl

/-- First characters of the source_supply category prefix. -/
theorem take3_source (a : String) :
    ("source_supply:" ++ a).data.take 3 = ['s', 'o', 'u'] := rfl

/-- First characters of the sink_demand category prefix. -/
theorem take3_sink (a : String) : ("sink_demand:" ++ a).data.take 3 = ['s', 'i', 'n'] := rfl

/-- First characters of the process_run_cap category prefix. -/
theorem take3_proc (a : String) :
    ("process_run_cap:" ++ a).data.take 3 = ['p', 'r', 'o'] := rfl

/-- A name filter misses every record of a list whose names all differ. -/
theorem filter_name_eq_nil {l : List TightConstraint} {s : String}
    (h : ∀ t ∈ l, ¬ t.name = s) : l.filter (fun t => t.name == s) = [] := by
  apply List.filter_eq_nil_iff.mpr
  intro t ht
  simp [h t ht]

/-- Name filter over a keyed filterMap with unique keys: only the entry of
the filtered key can contribute, and it contributes its own output. -/
theorem filter_name_filterMap {α : Type} (l : List (String × α))
    (f : String × α → Option TightConstraint) (pref k : String)
    (hname : ∀ p t, f p = some t → t.name = pref ++ p.1)
    (hnd : (l.map Prod.fst).Nodup) {cap : α} (hmem : (k, cap) ∈ l) :
    (l.filterMap f).filter (fun t => t.name == pref ++ k) = (f (k, cap)).toList := by
  induction l with
  | nil => cases hmem
  | cons a rest ih =>
    rw [List.filterMap_cons]
    rcases List.mem_cons.mp hmem with rfl | hm2
    · have hknotin : k ∉ rest.map Prod.fst := by
        rw [List.map_cons] at hnd
        exact (List.nodup_cons.mp hnd).1
      have htail : (rest.filterMap f).filter (fun t => t.name == pref ++ k) = [] := by
        apply filter_name_eq_nil
        intro t ht
        obtain ⟨p, hp, hfp⟩ := List.mem_filterMap.mp ht
        rw [hname p t hfp]
        intro habs
        have hpk : p.1 = k := strAppend_left_inj habs
        exact hknotin (hpk ▸ List.mem_map_of_mem Prod.fst hp)
      cases hf : f (k, cap) with
      | none => simpa [hf] using htail
      | some t0 =>
        have hn0 := hname _ _ hf
        dsimp only [Option.toList]
        simp [List.filter_cons, hn0, htail]
    · have hk : k ∈ rest.map Prod.fst := by
        simpa using List.mem_map_of_mem Prod.fst hm2
      have hane : ¬ a.1 = k := by
        rw [List.map_cons] at hnd
        intro he
        exact (List.nodup_cons.mp hnd).1 (he ▸ hk)
      have ihr := ih (by rw [List.map_cons] at hnd; exact (List.nodup_cons.mp hnd).2) hm2
      cases hf : f a with
      | none => exact ihr
      | some t0 =>
        have hn0 := hname _ _ hf
        have hne : (t0.name == pref ++ k) = false := by
          rw [hn0]
          simp only [beq_eq_false_iff_ne, ne_eq]
          intro habs
          exact hane (strAppend_left_inj habs)
        dsimp only
        rw [List.filter_cons]
        simp only [hne, Bool.false_eq_true, if_false]
        exact ihr

/-- Every record of the edge-cap stage is named with the edge_cap prefix. -/
theorem mem_tightEdgeCaps_name {built : LPBuild} {ef : List (String × ℚ)} {eps : ℚ}
    {t : TightConstraint} (h : t ∈ tightEdgeCaps built ef eps) :
    ∃ x, t.name = "edge_cap:" ++ x := by
  obtain ⟨p, hp, hf⟩ := List.mem_filterMap.mp h
  by_cases hc : p.2 - dictGetD ef p.1 ≤ eps
  · rw [if_pos hc] at hf; cases hf; exact ⟨p.1, rfl⟩
  · rw [if_neg hc] at hf; cases hf

/-- Every record of the source-supply stage is named with the
source_supply prefix. -/
theorem mem_tightSourceSupply_name {spec : SolveRequest} {built : LPBuild}
    {ef : List (String × ℚ)} {eps : ℚ} {t : TightConstraint}
    (h : t ∈ tightSourceSupply spec built ef eps) :
    ∃ x, t.name = "source_supply:" ++ x := by
  obtain ⟨p, hp, hf⟩ := List.mem_filterMap.mp h
  cases hn : nodesById spec.nodes p.1 with
  | none => rw [hn] at hf; cases hf
  | some n =>
    rw [hn] at hf
    dsimp only at hf
    cases hs : n.source with
    | none => rw [hs] at hf; cases hf
    | some sd =>
      rw [hs] at hf
      dsimp only at hf
      by_cases hc : p.2 - ((built.edgesByU p.1 sd.commodity).map
          (fun eid => dictGetD ef eid)).sum ≤ eps
      · rw [if_pos hc] at hf; cases hf; exact ⟨p.1, rfl⟩
      · rw [if_neg hc] at hf; cases hf

/-- Every record of the sink-demand stage is named with the sink_demand
prefix. -/
theorem mem_tightSinkDemand_name {spec : SolveRequest} {built : LPBuild}
    {ef : List (String × ℚ)} {eps : ℚ} {t : TightConstraint}
    (h : t ∈ tightSinkDemand spec built ef eps) :
    ∃ x, t.name = "sink_demand:" ++ x := by
  obtain ⟨p, hp, hf⟩ := List.mem_filterMap.mp h
  cases hn : nodesById spec.nodes p.1 with
  | none => rw [hn] at hf; cases hf
  | some n =>
    rw [hn] at hf
    dsimp only at hf
    cases hs : n.sink with
    | none => rw [hs] at hf; cases hf
    | some sd =>
      rw [hs] at hf
      dsimp only at hf
      by_cases hc : p.2 - ((built.edgesByV p.1 sd.commodity).map
          (fun eid => dictGetD ef eid)).sum ≤ eps
      · rw [if_pos hc] at hf; cases hf; exact ⟨p.1, rfl⟩
      · rw [if_neg hc] at hf; cases hf

/-- Every record of the run-cap stage is named with the process_run_cap
prefix. -/
theorem mem_tightProcRunCaps_name {built : LPBuild} {pr : List (String × ℚ)}
    {eps : ℚ} {t : TightConstraint} (h : t ∈ tightProcRunCaps built pr eps) :
    ∃ x, t.name = "process_run_cap:" ++ x := by
  obtain ⟨p, hp, hf⟩ := List.mem_filterMap.mp h
  by_cases hc : p.2 - dictGetD pr p.1 ≤ eps
  · rw [if_pos hc] at hf; cases hf; exact ⟨p.1, rfl⟩
  · rw [if_neg hc] at hf; cases hf

/-- Filtering by an exact slack value commutes with one ordered insertion:
the inserted record lands before every kept record of equal slack. -/
theorem filter_slack_orderedInsert (a : TightConstraint) (l : List TightConstraint)
    (s : ℚ) :
    (List.orderedInsert slackLE a l).filter (fun t => t.slack == s) =
    (if a.slack == s then a :: l.filter (fun t => t.slack == s)
     else l.filter (fun t => t.slack == s)) := by
  induction l with
  | nil =>
    rw [List.orderedInsert_nil]
    by_cases has : (a.slack == s) = true <;> simp [List.filter_cons, has]
  | cons b t ih =>
    rw [List.orderedInsert]
    by_cases hab : slackLE a b
    · rw [if_pos hab]
      by_cases has : (a.slack == s) = true <;> simp [List.filter_cons, has]
    · rw [if_neg hab]
      rw [List.filter_cons]
      by_cases hbs : (b.slack == s) = true
      · have hbs0 : b.slack = s := by simpa using hbs
        have has0 : ¬ (a.slack == s) = true := by
          simp only [beq_iff_eq]
          intro he
          exact hab (le_of_eq (he.trans hbs0.symm))
        simp [hbs, ih, has0]
      · simp [hbs, ih]

/-- Filtering by an exact slack value is invariant under the insertion
sort: equal-slack records keep their enumeration order. -/
theorem filter_slack_insertionSort (l : List TightConstraint) (s : ℚ) :
    (l.insertionSort slackLE).filter (fun t => t.slack == s) =
    l.filter (fun t => t.slack == s) := by
  induction l with
  | nil => rfl
  | cons a t ih =>
    rw [List.insertionSort, filter_slack_orderedInsert, ih, List.filter_cons]

/-- On an optimal (or feasible) status the extractor returns the populated
result built from the variable values. -/
theorem extract_optimal_eq {spec : SolveRequest} {built : LPBuild}
    {sol : SolverOutput} {eps : ℚ} (h : statusMap sol.statusCode = SolveStatus.optimal) :
    extractSolutionEps spec built sol eps =
      ⟨SolveStatus.optimal, some sol.objectiveValue,
       built.edgeVarIds.map (fun eid => (eid, sol.varValue (LPVar.flow eid))),
       built.runVarIds.map (fun nid => (nid, sol.varValue (LPVar.run nid))),
       computeSinkDelivered spec built
         (built.edgeVarIds.map (fun eid => (eid, sol.varValue (LPVar.flow eid)))),
       computeTightConstraints spec built
         (built.edgeVarIds.map (fun eid => (eid, sol.varValue (LPVar.flow eid))))
         (built.runVarIds.map (fun nid => (nid, sol.varValue (LPVar.run nid)))) eps,
       if sol.statusCode = FEASIBLE then
         some "Solver returned FEASIBLE (treated as optimal)." else none⟩ := by
  rw [extractSolutionEps, h]
  rw [if_neg (by decide), if_neg (by decide), if_neg (by decide)]

/-- The keys of the edge-caps map repeat no edge id. -/
theorem edgeCaps_keys_nodup {spec : SolveRequest} {b : LPBuild}
    (hb : buildLP spec = .ok b) (hndE : (spec.edges.map (fun e => e.id)).Nodup) :
    (b.edge_caps.map Prod.fst).Nodup := by
  rw [(buildLP_ok_fields hb).2.1, edgeCaps]
  refine ((keys_filterMap_sublist spec.edges _ (fun e => e.id) ?_).nodup hndE)
  intro x p hf
  cases hc : x.cap with
  | none => rw [hc] at hf; cases hf
  | some c => rw [hc] at hf; cases hf; rfl

/-- The keys of the source-supply map repeat no node id. -/
theorem sourceCaps_keys_nodup {spec : SolveRequest} {b : LPBuild}
    (hb : buildLP spec = .ok b) (hndN : (spec.nodes.map (fun n => n.id)).Nodup) :
    (b.source_supply_caps.map Prod.fst).Nodup := by
  rw [(buildLP_ok_fields hb).2.2.1, sourceSupplyCaps]
  refine ((keys_filterMap_sublist spec.nodes _ (fun n => n.id) ?_).nodup hndN)
  intro x p hf
  by_cases ht : x.type = NodeType.source
  · rw [if_pos ht] at hf
    cases hs : x.source with
    | none => rw [hs] at hf; cases hf
    | some sd => rw [hs] at hf; cases hf; rfl
  · rw [if_neg ht] at hf; cases hf

/-- The keys of the sink-demand map repeat no node id. -/
theorem sinkCaps_keys_nodup {spec : SolveRequest} {b : LPBuild}
    (hb : buildLP spec = .ok b) (hndN : (spec.nodes.map (fun n => n.id)).Nodup) :
    (b.sink_demand_caps.map Prod.fst).Nodup := by
  rw [(buildLP_ok_fields hb).2.2.2.1, sinkDemandCaps]
  refine ((keys_filterMap_sublist spec.nodes _ (fun n => n.id) ?_).nodup hndN)
  intro x p hf
  by_cases ht : x.type = NodeType.sink
  · rw [if_pos ht] at hf
    cases hs : x.sink with
    | none => rw [hs] at hf; cases hf
    | some sd => rw [hs] at hf; cases hf; rfl
  · rw [if_neg ht] at hf; cases hf

/-- The keys of the run-caps map repeat no node id. -/
theorem procCaps_keys_nodup {spec : SolveRequest} {b : LPBuild}
    (hb : buildLP spec = .ok b) (hndN : (spec.nodes.map (fun n => n.id)).Nodup) :
    (b.proc_run_caps.map Prod.fst).Nodup := by
  rw [(buildLP_ok_fields hb).2.2.2.2.1, procRunCaps]
  refine ((keys_filterMap_sublist spec.nodes _ (fun n => n.id) ?_).nodup hndN)
  intro x p hf
  by_cases ht : x.type = NodeType.process
  · rw [if_pos ht] at hf
    cases hs : x.process with
    | none => rw [hs] at hf; cases hf
    | some pd =>
      rw [hs] at hf
      dsimp only at hf
      cases hrc : pd.run_cap with
      | none => rw [hrc] at hf; cases hf
      | some c => rw [hrc] at hf; cases hf; rfl
  · rw [if_neg ht] at hf; cases hf

/-- The sorted tight list keeps exactly one edge_cap record per stored edge
cap, present exactly when its slack is within eps. -/
theorem computeTight_edge_char (spec : SolveRequest) (b : LPBuild)
    (ef pr : List (String × ℚ)) (eps : ℚ)
    (hb : buildLP spec = .ok b)
    (hndE : (spec.edges.map (fun e => e.id)).Nodup)
    (eid : String) (cap : ℚ) (hmem : (eid, cap) ∈ b.edge_caps) :
    (computeTightConstraints spec b ef pr eps).filter
      (fun t => t.name == "edge_cap:" ++ eid) =
    (if cap - dictGetD ef eid ≤ eps then
      [⟨"edge_cap:" ++ eid, cap - dictGetD ef eid⟩] else []) := by
  have hA : (tightEdgeCaps b ef eps).filter (fun t => t.name == "edge_cap:" ++ eid) =
      (if cap - dictGetD ef eid ≤ eps then
        [⟨"edge_cap:" ++ eid, cap - dictGetD ef eid⟩] else []) := by
    rw [tightEdgeCaps]
    rw [filter_name_filterMap b.edge_caps _ "edge_cap:" eid ?hn
      (edgeCaps_keys_nodup hb hndE) hmem]
    case hn =>
      intro p t hf
      by_cases hc : p.2 - dictGetD ef p.1 ≤ eps
      · rw [if_pos hc] at hf; cases hf; rfl
      · rw [if_neg hc] at hf; cases hf
    by_cases hc : cap - dictGetD ef eid ≤ eps
    · rw [if_pos hc, if_pos hc]; rfl
    · rw [if_neg hc, if_neg hc]; rfl
  have hB : (tightSourceSupply spec b ef eps).filter
      (fun t => t.name == "edge_cap:" ++ eid) = [] := by
    apply filter_name_eq_nil
    intro t ht
    obtain ⟨x, hx⟩ := mem_tightSourceSupply_name ht
    rw [hx]
    exact ne_of_take3_ne (by rw [take3_source, take3_edge]; decide)
  have hC : (tightSinkDemand spec b ef eps).filter
      (fun t => t.name == "edge_cap:" ++ eid) = [] := by
    apply filter_name_eq_nil
    intro t ht
    obtain ⟨x, hx⟩ := mem_tightSinkDemand_name ht
    rw [hx]
    exact ne_of_take3_ne (by rw [take3_sink, take3_edge]; decide)
  have hD : (tightProcRunCaps b pr eps).filter
      (fun t => t.name == "edge_cap:" ++ eid) = [] := by
    apply filter_name_eq_nil
    intro t ht
    obtain ⟨x, hx⟩ := mem_tightProcRunCaps_name ht
    rw [hx]
    exact ne_of_take3_ne (by rw [take3_proc, take3_edge]; decide)
  have hperm := (List.perm_insertionSort slackLE
    (tightEnum spec b ef pr eps)).filter (fun t => t.name == "edge_cap:" ++ eid)
  rw [tightEnum, List.filter_append, List.filter_append, List.filter_append,
    hA, hB, hC, hD] at hperm
  simp only [List.append_nil] at hperm
  rw [computeTightConstraints]
  by_cases hc : cap - dictGetD ef eid ≤ eps
  · rw [if_pos hc] at hperm
    rw [if_pos hc]
    exact List.perm_singleton.mp hperm
  · rw [if_neg hc] at hperm
    rw [if_neg hc]
    exact List.perm_nil.mp hperm

/-- The sorted tight list keeps exactly one source_supply record per
stored supply cap, present exactly when the slack of the aggregated
outflow is within eps. -/
theorem computeTight_source_char (spec : SolveRequest) (b : LPBuild)
    (ef pr : List (String × ℚ)) (eps : ℚ)
    (hb : buildLP spec = .ok b)
    (hndN : (spec.nodes.map (fun n => n.id)).Nodup)
    (nid : String) (cap : ℚ) (n : NodeSpec) (sd : SourceData)
    (hmem : (nid, cap) ∈ b.source_supply_caps)
    (hlook : nodesById spec.nodes nid = some n) (hsrc : n.source = some sd) :
    (computeTightConstraints spec b ef pr eps).filter
      (fun t => t.name == "source_supply:" ++ nid) =
    (if cap - ((b.edgesByU nid sd.commodity).map
        (fun eid => dictGetD ef eid)).sum ≤ eps then
      [⟨"source_supply:" ++ nid, cap - ((b.edgesByU nid sd.commodity).map
        (fun eid => dictGetD ef eid)).sum⟩] else []) := by
  have hB : (tightSourceSupply spec b ef eps).filter
      (fun t => t.name == "source_supply:" ++ nid) =
      (if cap - ((b.edgesByU nid sd.commodity).map
          (fun eid => dictGetD ef eid)).sum ≤ eps then
        [⟨"source_supply:" ++ nid, cap - ((b.edgesByU nid sd.commodity).map
          (fun eid => dictGetD ef eid)).sum⟩] else []) := by
    rw [tightSourceSupply]
    rw [filter_name_filterMap b.source_supply_caps _ "source_supply:" nid ?hn
      (sourceCaps_keys_nodup hb hndN) hmem]
    case hn =>
      intro p t hf
      cases hn2 : nodesById spec.nodes p.1 with
      | none => rw [hn2] at hf; cases hf
      | some m =>
        rw [hn2] at hf
        dsimp only at hf
        cases hs2 : m.source with
        | none => rw [hs2] at hf; cases hf
        | some sd2 =>
          rw [hs2] at hf
          dsimp only at hf
          by_cases hc : p.2 - ((b.edgesByU p.1 sd2.commodity).map
              (fun eid => dictGetD ef eid)).sum ≤ eps
          · rw [if_pos hc] at hf; cases hf; rfl
          · rw [if_neg hc] at hf; cases hf
    rw [hlook]
    dsimp only
    rw [hsrc]
    dsimp only
    by_cases hc : cap - ((b.edgesByU nid sd.commodity).map
        (fun eid => dictGetD ef eid)).sum ≤ eps
    · rw [if_pos hc, if_pos hc]; rfl
    · rw [if_neg hc, if_neg hc]; rfl
  have hA : (tightEdgeCaps b ef eps).filter
      (fun t => t.name == "source_supply:" ++ nid) = [] := by
    apply filter_name_eq_nil
    intro t ht
    obtain ⟨x, hx⟩ := mem_tightEdgeCaps_name ht
    rw [hx]
    exact ne_of_take3_ne (by rw [take3_edge, take3_source]; decide)
  have hC : (tightSinkDemand spec b ef eps).filter
      (fun t => t.name == "source_supply:" ++ nid) = [] := by
    apply filter_name_eq_nil
    intro t ht
    obtain ⟨x, hx⟩ := mem_tightSinkDemand_name ht
    rw [hx]
    exact ne_of_take3_ne (by rw [take3_sink, take3_source]; decide)
  have hD : (tightProcRunCaps b pr eps).filter
      (fun t => t.name == "source_supply:" ++ nid) = [] := by
    apply filter_name_eq_nil
    intro t ht
    obtain ⟨x, hx⟩ := mem_tightProcRunCaps_name ht
    rw [hx]
    exact ne_of_take3_ne (by rw [take3_proc, take3_source]; decide)
  have hperm := (List.perm_insertionSort slackLE
    (tightEnum spec b ef pr eps)).filter (fun t => t.name == "source_supply:" ++ nid)
  rw [tightEnum, List.filter_append, List.filter_append, List.filter_append,
    hA, hB, hC, hD] at hperm
  simp only [List.nil_append, List.append_nil] at hperm
  rw [computeTightConstraints]
  by_cases hc : cap - ((b.edgesByU nid sd.commodity).map
      (fun eid => dictGetD ef eid)).sum ≤ eps
  · rw [if_pos hc] at hperm
    rw [if_pos hc]
    exact List.perm_singleton.mp hperm
  · rw [if_neg hc] at hperm
    rw [if_neg hc]
    exact List.perm_nil.mp hperm

/-- The sorted tight list keeps exactly one sink_demand record per stored
demand cap, present exactly when the slack of the aggregated inflow is
within eps. -/
theorem computeTight_sink_char (spec : SolveRequest) (b : LPBuild)
    (ef pr : List (String × ℚ)) (eps : ℚ)
    (hb : buildLP spec = .ok b)
    (hndN : (spec.nodes.map (fun n => n.id)).Nodup)
    (nid : String) (cap : ℚ) (n : NodeSpec) (sd : SinkData)
    (hmem : (nid, cap) ∈ b.sink_demand_caps)
    (hlook : nodesById spec.nodes nid = some n) (hsnk : n.sink = some sd) :
    (computeTightConstraints spec b ef pr eps).filter
      (fun t => t.name == "sink_demand:" ++ nid) =
    (if cap - ((b.edgesByV nid sd.commodity).map
        (fun eid => dictGetD ef eid)).sum ≤ eps then
      [⟨"sink_demand:" ++ nid, cap - ((b.edgesByV nid sd.commodity).map
        (fun eid => dictGetD ef eid)).sum⟩] else []) := by
  have hC : (tightSinkDemand spec b ef eps).filter
      (fun t => t.name == "sink_demand:" ++ nid) =
      (if cap - ((b.edgesByV nid sd.commodity).map
          (fun eid => dictGetD ef eid)).sum ≤ eps then
        [⟨"sink_demand:" ++ nid, cap - ((b.edgesByV nid sd.commodity).map
          (fun eid => dictGetD ef eid)).sum⟩] else []) := by
    rw [tightSinkDemand]
    rw [filter_name_filterMap b.sink_demand_caps _ "sink_demand:" nid ?hn
      (sinkCaps_keys_nodup hb hndN) hmem]
    case hn =>
      intro p t hf
      cases hn2 : nodesById spec.nodes p.1 with
      | none => rw [hn2] at hf; cases hf
      | some m =>
        rw [hn2] at hf
        dsimp only at hf
        cases hs2 : m.sink with
        | none => rw [hs2] at hf; cases hf
        | some sd2 =>
          rw [hs2] at hf
          dsimp only at hf
          by_cases hc : p.2 - ((b.edgesByV p.1 sd2.commodity).map
              (fun eid => dictGetD ef eid)).sum ≤ eps
          · rw [if_pos hc] at hf; cases hf; rfl
          · rw [if_neg hc] at hf; cases hf
    rw [hlook]
    dsimp only
    rw [hsnk]
    dsimp only
    by_cases hc : cap - ((b.edgesByV nid sd.commodity).map
        (fun eid => dictGetD ef eid)).sum ≤ eps
    · rw [if_pos hc, if_pos hc]; rfl
    · rw [if_neg hc, if_neg hc]; rfl
  have hA : (tightEdgeCaps b ef eps).filter
      (fun t => t.name == "sink_demand:" ++ nid) = [] := by
    apply filter_name_eq_nil
    intro t ht
    obtain ⟨x, hx⟩ := mem_tightEdgeCaps_name ht
    rw [hx]
    exact ne_of_take3_ne (by rw [take3_edge, take3_sink]; decide)
  have hB : (tightSourceSupply spec b ef eps).filter
      (fun t => t.name == "sink_demand:" ++ nid) = [] := by
    apply filter_name_eq_nil
    intro t ht
    obtain ⟨x, hx⟩ := mem_tightSourceSupply_name ht
    rw [hx]
    exact ne_of_take3_ne (by rw [take3_source, take3_sink]; decide)
  have hD : (tightProcRunCaps b pr eps).filter
      (fun t => t.name == "sink_demand:" ++ nid) = [] := by
    apply filter_name_eq_nil
    intro t ht
    obtain ⟨x, hx⟩ := mem_tightProcRunCaps_name ht
    rw [hx]
    exact ne_of_take3_ne (by rw [take3_proc, take3_sink]; decide)
  have hperm := (List.perm_insertionSort slackLE
    (tightEnum spec b ef pr eps)).filter (fun t => t.name == "sink_demand:" ++ nid)
  rw [tightEnum, List.filter_append, List.filter_append, List.filter_append,
    hA, hB, hC, hD] at hperm
  simp only [List.nil_append, List.append_nil] at hperm
  rw [computeTightConstraints]
  by_cases hc : cap - ((b.edgesByV nid sd.commodity).map
      (fun eid => dictGetD ef eid)).sum ≤ eps
  · rw [if_pos hc] at hperm
    rw [if_pos hc]
    exact List.perm_singleton.mp hperm
  · rw [if_neg hc] at hperm
    rw [if_neg hc]
    exact List.perm_nil.mp hperm

/-- The sorted tight list keeps exactly one process_run_cap record per
stored run cap, present exactly when its slack is within eps. -/
theorem computeTight_proc_char (spec : SolveRequest) (b : LPBuild)
    (ef pr : List (String × ℚ)) (eps : ℚ)
    (hb : buildLP spec = .ok b)
    (hndN : (spec.nodes.map (fun n => n.id)).Nodup)
    (nid : String) (cap : ℚ) (hmem : (nid, cap) ∈ b.proc_run_caps) :
    (computeTightConstraints spec b ef pr eps).filter
      (fun t => t.name == "process_run_cap:" ++ nid) =
    (if cap - dictGetD pr nid ≤ eps then
      [⟨"process_run_cap:" ++ nid, cap - dictGetD pr nid⟩] else []) := by
  have hD : (tightProcRunCaps b pr eps).filter
      (fun t => t.name == "process_run_cap:" ++ nid) =
      (if cap - dictGetD pr nid ≤ eps then
        [⟨"process_run_cap:" ++ nid, cap - dictGetD pr nid⟩] else []) := by
    rw [tightProcRunCaps]
    rw [filter_name_filterMap b.proc_run_caps _ "process_run_cap:" nid ?hn
      (procCaps_keys_nodup hb hndN) hmem]
    case hn =>
      intro p t hf
      by_cases hc : p.2 - dictGetD pr p.1 ≤ eps
      · rw [if_pos hc] at hf; cases hf; rfl
      · rw [if_neg hc] at hf; cases hf
    by_cases hc : cap - dictGetD pr nid ≤ eps
    · rw [if_pos hc, if_pos hc]; rfl
    · rw [if_neg hc, if_neg hc]; rfl
  have hA : (tightEdgeCaps b ef eps).filter
      (fun t => t.name == "process_run_cap:" ++ nid) = [] := by
    apply filter_name_eq_nil
    intro t ht
    obtain ⟨x, hx⟩ := mem_tightEdgeCaps_name ht
    rw [hx]
    exact ne_of_take3_ne (by rw [take3_edge, take3_proc]; decide)
  have hB : (tightSourceSupply spec b ef eps).filter
      (fun t => t.name == "process_run_cap:" ++ nid) = [] := by
    apply filter_name_eq_nil
    intro t ht
    obtain ⟨x, hx⟩ := mem_tightSourceSupply_name ht
    rw [hx]
    exact ne_of_take3_ne (by rw [take3_source, take3_proc]; decide)
  have hC : (tightSinkDemand spec b ef eps).filter
      (fun t => t.name == "process_run_cap:" ++ nid) = [] := by
    apply filter_name_eq_nil
    intro t ht
    obtain ⟨x, hx⟩ := mem_tightSinkDemand_name ht
    rw [hx]
    exact ne_of_take3_ne (by rw [take3_sink, take3_proc]; decide)
  have hperm := (List.perm_insertionSort slackLE
    (tightEnum spec b ef pr eps)).filter (fun t => t.name == "process_run_cap:" ++ nid)
  rw [tightEnum, List.filter_append, List.filter_append, List.filter_append,
    hA, hB, hC, hD] at hperm
  simp only [List.nil_append, List.append_nil] at hperm
  rw [computeTightConstraints]
  by_cases hc : cap - dictGetD pr nid ≤ eps
  · rw [if_pos hc] at hperm
    rw [if_pos hc]
    exact List.perm_singleton.mp hperm
  · rw [if_neg hc] at hperm
    rw [if_neg hc]
    exact List.perm_nil.mp hperm

/-- Claim C5 as amended: on an optimal solve through extract_solution with
its default tolerance of 1e-7, the tight list holds exactly one record
named category:id per capacity-bearing construct whose slack is within the
tolerance, with the slack cap minus used; the list is sorted ascending by
slack; it is a permutation of the enumerated stage output; and records of
equal slack keep their enumeration order (stable sort). -/
theorem tight_constraints_exact : ∀ (spec : SolveRequest) (b : LPBuild)
    (sol : SolverOutput),
    buildLP spec = .ok b →
    (spec.nodes.map (fun n => n.id)).Nodup →
    (spec.edges.map (fun e => e.id)).Nodup →
    statusMap sol.statusCode = SolveStatus.optimal →
    ((∀ eid cap, (eid, cap) ∈ b.edge_caps →
        ((extractSolution spec b sol).tight_constraints.filter
          (fun t => t.name == "edge_cap:" ++ eid)) =
        (if cap - dictGetD (extractSolution spec b sol).edge_flows eid ≤
            extractEpsDefault
         then [⟨"edge_cap:" ++ eid,
                cap - dictGetD (extractSolution spec b sol).edge_flows eid⟩]
         else [])) ∧
     (∀ nid cap n sd, (nid, cap) ∈ b.source_supply_caps →
        nodesById spec.nodes nid = some n → n.source = some sd →
        ((extractSolution spec b sol).tight_constraints.filter
          (fun t => t.name == "source_supply:" ++ nid)) =
        (if cap - ((b.edgesByU nid sd.commodity).map
            (fun eid => dictGetD (extractSolution spec b sol).edge_flows eid)).sum ≤
            extractEpsDefault
         then [⟨"source_supply:" ++ nid, cap - ((b.edgesByU nid sd.commodity).map
            (fun eid => dictGetD (extractSolution spec b sol).edge_flows eid)).sum⟩]
         else [])) ∧
     (∀ nid cap n sd, (nid, cap) ∈ b.sink_demand_caps →
        nodesById spec.nodes nid = some n → n.sink = some sd →
        ((extractSolution spec b sol).tight_constraints.filter
          (fun t => t.name == "sink_demand:" ++ nid)) =
        (if cap - ((b.edgesByV nid sd.commodity).map
            (fun eid => dictGetD (extractSolution spec b sol).edge_flows eid)).sum ≤
            extractEpsDefault
         then [⟨"sink_demand:" ++ nid, cap - ((b.edgesByV nid sd.commodity).map
            (fun eid => dictGetD (extractSolution spec b sol).edge_flows eid)).sum⟩]
         else [])) ∧
     (∀ nid cap, (nid, cap) ∈ b.proc_run_caps →
        ((extractSolution spec b sol).tight_constraints.filter
          (fun t => t.name == "process_run_cap:" ++ nid)) =
        (if cap - dictGetD (extractSolution spec b sol).process_runs nid ≤
            extractEpsDefault
         then [⟨"process_run_cap:" ++ nid,
                cap - dictGetD (extractSolution spec b sol).process_runs nid⟩]
         else [])) ∧
     List.Sorted slackLE (extractSolution spec b sol).tight_constraints ∧
     ((extractSolution spec b sol).tight_constraints.Perm
        (tightEnum spec b (extractSolution spec b sol).edge_flows
          (extractSolution spec b sol).process_runs extractEpsDefault)) ∧
     (∀ s : ℚ, ((extractSolution spec b sol).tight_constraints.filter
          (fun t => t.slack == s)) =
        (tightEnum spec b (extractSolution spec b sol).edge_flows
          (extractSolution spec b sol).process_runs extractEpsDefault).filter
            (fun t => t.slack == s))) := by
  intro spec b sol hb hndN hndE hstat
  have hx := @extract_optimal_eq spec b sol extractEpsDefault hstat
  rw [extractSolution, hx]
  dsimp only
  refine ⟨?_, ?_, ?_, ?_, ?_, ?_, ?_⟩
  · intro eid cap hm
    exact computeTight_edge_char spec b _ _ _ hb hndE eid cap hm
  · intro nid cap n sd hm hl hs
    exact computeTight_source_char spec b _ _ _ hb hndN nid cap n sd hm hl hs
  · intro nid cap n sd hm hl hs
    exact computeTight_sink_char spec b _ _ _ hb hndN nid cap n sd hm hl hs
  · intro nid cap hm
    exact computeTight_proc_char spec b _ _ _ hb hndN nid cap hm
  · rw [computeTightConstraints]
    exact List.sorted_insertionSort slackLE _
  · rw [computeTightConstraints]
    exact List.perm_insertionSort slackLE _
  · intro s
    rw [computeTightConstraints]
    exact filter_slack_insertionSort _ s

/-- Witness for the amended C5: at the capped variant of scenario A with
the optimal flow of 50, the sink-demand record of snk is present with
slack zero. -/
theorem tight_constraints_exact_witness :
    (buildLP slackSpec).toOption.map (fun b =>
      (extractSolution slackSpec b slackSol).tight_constraints.filter
        (fun t => t.name == "sink_demand:" ++ "snk")) =
    some [⟨"sink_demand:" ++ "snk", 50 - 50⟩] := by
  cases hcase : buildLP slackSpec with
  | error e =>
    have hOk : (buildLP slackSpec).toOption.isSome = true := rfl
    rw [hcase] at hOk
    simp [Except.toOption] at hOk
  | ok b =>
    have H := (tight_constraints_exact slackSpec b slackSol hcase (by decide)
      (by decide) (by decide)).2.2.1
    have hmem : (("snk" : String), (50 : ℚ)) ∈ b.sink_demand_caps := by
      rw [(buildLP_ok_fields hcase).2.2.2.1]
      show _ ∈ [(("snk" : String), (50 : ℚ))]
      exact List.mem_singleton.mpr rfl
    have hsnk := H "snk" 50 ⟨"snk", NodeType.sink, none, none,
      some ⟨"water", 50, 10⟩, none⟩ ⟨"water", 50, 10⟩ hmem rfl rfl
    have hV : b.edgesByV "snk" "water" = ["e1"] := by
      rw [(buildLP_ok_fields hcase).2.2.2.2.2.2.1]
      rfl
    have hEF : dictGetD (extractSolution slackSpec b slackSol).edge_flows "e1" = 50 := by
      rw [extractSolution, @extract_optimal_eq slackSpec b slackSol
        extractEpsDefault (by decide)]
      dsimp only
      rw [(buildLP_ok_fields hcase).2.2.2.2.2.2.2.1]
      rfl
    rw [hV] at hsnk
    simp only [List.map_cons, List.map_nil, List.sum_cons, List.sum_nil, hEF] at hsnk
    rw [if_pos (by norm_num [extractEpsDefault])] at hsnk
    simp only [Except.toOption, Option.map_some']
    rw [hsnk]
    norm_num

/-- Counterexample to C5 as stated: the claim says the tight-constraint
step defaults to a tolerance of 1e-6, but extract_solution passes its own
default of 1e-7 down. On the capped variant of scenario A the edge slack is
5e-7, within the claimed 1e-6 yet no edge_cap record is produced. -/
theorem tight_eps_default_counterexample :
    ((buildLP slackSpec).toOption.map (fun b =>
      ((extractSolution slackSpec b slackSol).tight_constraints.filter
        (fun t => t.name == "edge_cap:" ++ "e1")).length) = some 0) ∧
    ((buildLP slackSpec).toOption.map (fun b => b.edge_caps) =
      some [("e1", 50 + 1 / 2000000)]) ∧
    ((50 + 1 / 2000000 : ℚ) - 50 ≤ tightEpsDefault) ∧
    statusMap slackSol.statusCode = SolveStatus.optimal := by
  refine ⟨?_, by rfl, by norm_num [tightEpsDefault], by decide⟩
  cases hcase : buildLP slackSpec with
  | error e =>
    have hOk : (buildLP slackSpec).toOption.isSome = true := rfl
    rw [hcase] at hOk
    simp [Except.toOption] at hOk
  | ok b =>
    have hmem : (("e1" : String), (50 + 1 / 2000000 : ℚ)) ∈ b.edge_caps := by
      rw [(buildLP_ok_fields hcase).2.1]
      show _ ∈ [(("e1" : String), (50 + 1 / 2000000 : ℚ))]
      exact List.mem_singleton.mpr rfl
    have hEF : dictGetD (extractSolution slackSpec b slackSol).edge_flows "e1" = 50 := by
      rw [extractSolution, @extract_optimal_eq slackSpec b slackSol
        extractEpsDefault (by decide)]
      dsimp only
      rw [(buildLP_ok_fields hcase).2.2.2.2.2.2.2.1]
      rfl
    have hchar : ((extractSolution slackSpec b slackSol).tight_constraints.filter
        (fun t => t.name == "edge_cap:" ++ "e1")) = [] := by
      rw [extractSolution, @extract_optimal_eq slackSpec b slackSol
        extractEpsDefault (by decide)]
      dsimp only
      rw [computeTight_edge_char slackSpec b _ _ _ hcase (by decide) "e1"
        (50 + 1 / 2000000) hmem]
      rw [if_neg ?_]
      have hEF2 := hEF
      rw [extractSolution, @extract_optimal_eq slackSpec b slackSol
        extractEpsDefault (by decide)] at hEF2
      dsimp only at hEF2
      rw [hEF2]
      norm_num [extractEpsDefault]
    simp only [Except.toOption, Option.map_some']
    rw [hchar]
    rfl

end PipelineOpt
